import Mathlib

/-!
Verification of the contentful-page-status sidebar core logic.

This file gives a shallow embedding of the three algorithmic pieces of
`src/locations/Sidebar.tsx` (extended version):

* `fetchReferencesIteratively` — the iterative, cycle-safe reference
  traversal (Reference Collector);
* `buildReferenceInformation` — the status classifier;
* `doPublish` — the publish/schedule orchestrator.

Asynchronous SDK calls are modelled by explicit environments
(`Env` for the reference fetches, `PubEnv` for the publish calls), and
effects (progress callbacks, publish calls, status reports) are recorded
as traces in the state.  ISO timestamp strings are modelled as `Nat`
(string comparison of ISO-8601 dates agrees with chronological order).
-/

namespace CPS

/-- Metadata common to entries, assets and the root entry
(`sys` in the source): identity, version counters, publish timestamp,
and the space/environment ids used by the scheduling calls.
`publishedVersion = none` models an absent `sys.publishedVersion`,
`publishedAt = none` an absent `sys.publishedAt`. -/
structure SysProps where
  id : String
  version : Nat := 0
  publishedVersion : Option Nat := none
  publishedAt : Option Nat := none
  spaceId : String := ""
  environmentId : String := ""
deriving DecidableEq, Repr

/-- An entry as seen by the traversal and classifier:
its `sys` metadata plus its content type id
(`entry.sys.contentType.sys.id` in the source). -/
structure Entry where
  sys : SysProps
  contentType : String
deriving DecidableEq, Repr

/-- An asset: only its `sys` metadata is consumed by the core logic. -/
structure Asset where
  sys : SysProps
deriving DecidableEq, Repr

/-- Model of the `contentful-management` helper `isDraft`
(external library dependency of the source):
an entity is a draft when it has no `sys.publishedVersion`. -/
def isDraft (s : SysProps) : Bool :=
  s.publishedVersion.isNone

/-- Model of the `contentful-management` helper `isPublished`
(external library dependency of the source):
an entity is published when it has a `sys.publishedVersion`. -/
def isPublished (s : SysProps) : Bool :=
  s.publishedVersion.isSome

/-- Model of the `contentful-management` helper `isUpdated`
(external library dependency of the source): an entity is updated when it
has a `sys.publishedVersion` and `sys.version >= sys.publishedVersion + 2`. -/
def isUpdated (s : SysProps) : Bool :=
  match s.publishedVersion with
  | none => false
  | some pv => decide (pv + 2 ≤ s.version)

/-- A collection error (`EntryReferenceError` in the source), reduced to
the fields the core logic produces and inspects: the id of the node it is
keyed to (`error.sys.id`) and a message. -/
structure RefError where
  sysId : String
  message : String
deriving DecidableEq, Repr

/-- The entry types excluded from recursive reference fetching
(`EXCLUDED_CONTENT_TYPES` in the source). -/
def EXCLUDED_CONTENT_TYPES : List String :=
  ["article", "page", "articleType", "person", "tag", "template",
   "customType", "navigation"]

/-- A successful response of `sdk.cma.entry.references({entryId})`:
merged collection errors, the `includes.Asset` list and the
`includes.Entry` list (an absent `includes` field behaves exactly like
empty lists in the source loops). -/
structure RefsResponse where
  errors : List RefError
  assets : List Asset
  entries : List Entry
deriving DecidableEq, Repr

/-- Outcome of one `sdk.cma.entry.references` call: a response, a falsy
(`null`/`undefined`) response, or a thrown failure with a message. -/
inductive FetchResult where
  | ok (refs : RefsResponse)
  | nullResponse
  | failure (msg : String)
deriving DecidableEq, Repr

/-- The Content Repository Client for the traversal: what a references
fetch for each entry id returns. -/
abbrev Env := String → FetchResult

/-- Entries contained in a fetch outcome (empty unless the fetch
succeeded with a response). -/
def FetchResult.entriesOf : FetchResult → List Entry
  | .ok refs => refs.entries
  | .nullResponse => []
  | .failure _ => []

/-- State of one run of `fetchReferencesIteratively`: the accumulated
`IAllReferences` result fields (`entries`, `assets`, `errors`,
`processedEntryIds`), the local queue and bookkeeping sets, the progress
counters, the list of `setProgress` reports in emission order, and the
trace of entry ids for which a references fetch was issued. -/
structure TravState where
  entries : List Entry
  assets : List Asset
  errors : List RefError
  processedEntryIds : Finset String
  queue : List String
  entriesQueued : Finset String
  trackedEntryIds : Finset String
  trackedAssetIds : Finset String
  processed : Nat
  total : Nat
  reports : List (Nat × Nat)
  fetchTrace : List String
deriving DecidableEq

/-- Asset loop body of `fetchReferencesIteratively`: push the asset to the
result collection unless its id is already tracked. -/
def addAsset (st : TravState) (a : Asset) : TravState :=
  if a.sys.id ∈ st.trackedAssetIds then st
  else { st with assets := st.assets ++ [a],
                 trackedAssetIds := insert a.sys.id st.trackedAssetIds }

/-- First half of the entry loop body of `fetchReferencesIteratively`:
push the entry to the result collection unless its id is already
tracked. -/
def trackEntry (st : TravState) (e : Entry) : TravState :=
  if e.sys.id ∈ st.trackedEntryIds then st
  else { st with entries := st.entries ++ [e],
                 trackedEntryIds := insert e.sys.id st.trackedEntryIds }

/-- Second half of the entry loop body: queue the entry for expansion when
its content type is not excluded and its id was never queued, incrementing
`total` and reporting progress. -/
def queueEntry (excluded : List String) (st : TravState) (e : Entry) :
    TravState :=
  if e.contentType ∉ excluded ∧ e.sys.id ∉ st.entriesQueued then
    { st with queue := st.queue ++ [e.sys.id],
              entriesQueued := insert e.sys.id st.entriesQueued,
              total := st.total + 1,
              reports := st.reports ++ [(st.processed, st.total + 1)] }
  else st

/-- Entry loop body of `fetchReferencesIteratively`: add to the result
collection, then — independently — evaluate for queueing. -/
def addEntry (excluded : List String) (st : TravState) (e : Entry) : TravState :=
  queueEntry excluded (trackEntry st e) e

/-- Synthetic collection error recorded when fetching a node fails
(the `catch` block of the traversal loop). -/
def fetchError (nodeId msg : String) : RefError :=
  { sysId := nodeId, message := "Error fetching references: " ++ msg }

/-- One iteration of the `while` loop of `fetchReferencesIteratively`,
applied to the dequeued id `currentId` and the remaining queue `rest`:
skip if already processed; otherwise mark processed, fetch, and either
record a synthetic error (thrown fetch), stop early (falsy response), or
merge errors and fold the asset and entry loops. -/
def stepVisit (env : Env) (excluded : List String) (st : TravState)
    (currentId : String) (rest : List String) : TravState :=
  if currentId ∈ st.processedEntryIds then
    { st with queue := rest }
  else
    let st0 := { st with
      queue := rest,
      processedEntryIds := insert currentId st.processedEntryIds,
      fetchTrace := st.fetchTrace ++ [currentId] }
    match env currentId with
    | .failure msg =>
        { st0 with
          errors := st0.errors ++ [fetchError currentId msg],
          processed := st0.processed + 1,
          reports := st0.reports ++ [(st0.processed + 1, st0.total)] }
    | .nullResponse =>
        { st0 with
          processed := st0.processed + 1,
          reports := st0.reports ++ [(st0.processed + 1, st0.total)] }
    | .ok refs =>
        let st1 := { st0 with
          processed := st0.processed + 1,
          reports := st0.reports ++ [(st0.processed + 1, st0.total)] }
        let st2 := { st1 with errors := st1.errors ++ refs.errors }
        let st3 := refs.assets.foldl addAsset st2
        refs.entries.foldl (addEntry excluded) st3

/-- Fuel-indexed unfolding of the traversal `while` loop: runs until the
queue is empty or the fuel runs out.  The termination theorem shows that
any fuel of at least the size of the id universe empties the queue. -/
def traverse (env : Env) (excluded : List String) : Nat → TravState → TravState
  | 0, st => st
  | fuel + 1, st =>
    match st.queue with
    | [] => st
    | currentId :: rest =>
        traverse env excluded fuel (stepVisit env excluded st currentId rest)

/-- Initial traversal state for a root entry id: queue seeded with the
root, the root pre-inserted in the queued set, `processed = 0`,
`total = 1`. -/
def initState (rootId : String) : TravState :=
  { entries := [], assets := [], errors := [],
    processedEntryIds := ∅,
    queue := [rootId],
    entriesQueued := {rootId},
    trackedEntryIds := ∅, trackedAssetIds := ∅,
    processed := 0, total := 1,
    reports := [], fetchTrace := [] }

/-- The collector `collect(rootId)`: `fetchReferencesIteratively` run from
the initial state with the given fuel. -/
def collect (env : Env) (excluded : List String) (rootId : String)
    (fuel : Nat) : TravState :=
  traverse env excluded fuel (initState rootId)

/-- Alias under the source's function name: `fetchReferencesIteratively`
is the collector run from a root entry id. -/
def fetchReferencesIteratively (env : Env) (excluded : List String)
    (entryId : String) (fuel : Nat) : TravState :=
  collect env excluded entryId fuel

/-- Finite id universe hypothesis: every entry id occurring in any fetch
response of the environment lies in the finite set `allIds`.  A reference
graph has finitely many nodes, so every graph instance satisfies this for
some `allIds`. -/
def EnvBound (env : Env) (allIds : Finset String) : Prop :=
  ∀ id : String, ∀ e ∈ (env id).entriesOf, e.sys.id ∈ allIds

/-- Loop invariant of the traversal touching only the fields the entry
and asset loops may modify: queue discipline, result-set deduplication,
progress-counter accounting, report monotonicity, and the provenance of
queued ids. -/
structure EInv (env : Env) (excluded : List String) (root : String)
    (st : TravState) : Prop where
  queue_nodup : st.queue.Nodup
  queue_sub_queued : ∀ x ∈ st.queue, x ∈ st.entriesQueued
  queue_not_processed : ∀ x ∈ st.queue, x ∉ st.processedEntryIds
  processed_sub_queued : st.processedEntryIds ⊆ st.entriesQueued
  queued_covered : ∀ x ∈ st.entriesQueued,
    x ∈ st.processedEntryIds ∨ x ∈ st.queue
  entries_nodup : (st.entries.map fun e => e.sys.id).Nodup
  entries_toFinset :
    (st.entries.map fun e => e.sys.id).toFinset = st.trackedEntryIds
  assets_nodup : (st.assets.map fun a => a.sys.id).Nodup
  assets_toFinset :
    (st.assets.map fun a => a.sys.id).toFinset = st.trackedAssetIds
  count_eq : st.processed + st.queue.length = st.total
  reports_mono : st.reports.Pairwise fun r1 r2 => r1.1 ≤ r2.1 ∧ r1.2 ≤ r2.2
  reports_le : ∀ r ∈ st.reports, r.1 ≤ st.processed ∧ r.2 ≤ st.total ∧ r.1 ≤ r.2
  last_report : st.reports = [] ∨
    st.reports.getLast? = some (st.processed, st.total)
  queued_justified : ∀ x ∈ st.entriesQueued, x = root ∨
    ∃ srcId e, e ∈ (env srcId).entriesOf ∧ e.sys.id = x ∧
      e.contentType ∉ excluded

/-- Full loop invariant: `EInv` together with the clauses about the fetch
trace, the recorded errors, and the relation between processed responses
and the result entry set. -/
structure Inv (env : Env) (excluded : List String) (root : String)
    (st : TravState) extends EInv env excluded root st : Prop where
  trace_nodup : st.fetchTrace.Nodup
  trace_toFinset : st.fetchTrace.toFinset = st.processedEntryIds
  reports_trace : st.reports = [] → st.fetchTrace = []
  responses_included : ∀ y ∈ st.fetchTrace, ∀ e ∈ (env y).entriesOf,
    e.sys.id ∈ st.trackedEntryIds
  failures_recorded : ∀ y ∈ st.fetchTrace, ∀ msg, env y = .failure msg →
    fetchError y msg ∈ st.errors

/-- Adding one asset leaves every field but `assets` and
`trackedAssetIds` unchanged. -/
theorem addAsset_fields (st : TravState) (a : Asset) :
    (addAsset st a).queue = st.queue ∧
    (addAsset st a).entriesQueued = st.entriesQueued ∧
    (addAsset st a).processedEntryIds = st.processedEntryIds ∧
    (addAsset st a).fetchTrace = st.fetchTrace ∧
    (addAsset st a).entries = st.entries ∧
    (addAsset st a).trackedEntryIds = st.trackedEntryIds ∧
    (addAsset st a).processed = st.processed ∧
    (addAsset st a).total = st.total ∧
    (addAsset st a).reports = st.reports ∧
    (addAsset st a).errors = st.errors := by
  unfold addAsset
  split <;> simp

/-- The asset loop leaves every field but `assets` and `trackedAssetIds`
unchanged. -/
theorem assetFold_fields (l : List Asset) (st : TravState) :
    (l.foldl addAsset st).queue = st.queue ∧
    (l.foldl addAsset st).entriesQueued = st.entriesQueued ∧
    (l.foldl addAsset st).processedEntryIds = st.processedEntryIds ∧
    (l.foldl addAsset st).fetchTrace = st.fetchTrace ∧
    (l.foldl addAsset st).entries = st.entries ∧
    (l.foldl addAsset st).trackedEntryIds = st.trackedEntryIds ∧
    (l.foldl addAsset st).processed = st.processed ∧
    (l.foldl addAsset st).total = st.total ∧
    (l.foldl addAsset st).reports = st.reports ∧
    (l.foldl addAsset st).errors = st.errors := by
  induction l generalizing st with
  | nil => simp
  | cons a t ih =>
    simp only [List.foldl_cons]
    obtain ⟨h1, h2, h3, h4, h5, h6, h7, h8, h9, h10⟩ := ih (addAsset st a)
    obtain ⟨g1, g2, g3, g4, g5, g6, g7, g8, g9, g10⟩ := addAsset_fields st a
    exact ⟨h1.trans g1, h2.trans g2, h3.trans g3, h4.trans g4, h5.trans g5,
      h6.trans g6, h7.trans g7, h8.trans g8, h9.trans g9, h10.trans g10⟩

/-- Adding one asset preserves deduplication of the asset collection and
its correspondence with the tracked-id set. -/
theorem addAsset_dedup (st : TravState) (a : Asset)
    (hnd : (st.assets.map fun x => x.sys.id).Nodup)
    (hfs : (st.assets.map fun x => x.sys.id).toFinset = st.trackedAssetIds) :
    ((addAsset st a).assets.map fun x => x.sys.id).Nodup ∧
    ((addAsset st a).assets.map fun x => x.sys.id).toFinset =
      (addAsset st a).trackedAssetIds := by
  by_cases h : a.sys.id ∈ st.trackedAssetIds
  · simp only [addAsset, if_pos h]
    exact ⟨hnd, hfs⟩
  · simp only [addAsset, if_neg h]
    have hnotmem : a.sys.id ∉ st.assets.map fun x => x.sys.id := by
      rw [← List.mem_toFinset, hfs]; exact h
    constructor
    · simp only [List.map_append, List.map_cons, List.map_nil]
      rw [List.nodup_append]
      refine ⟨hnd, List.nodup_singleton _, ?_⟩
      intro x hx hx1
      simp only [List.mem_singleton] at hx1
      exact hnotmem (hx1 ▸ hx)
    · simp only [List.map_append, List.map_cons, List.map_nil,
        List.toFinset_append, List.toFinset_cons, List.toFinset_nil]
      rw [hfs]
      rw [Finset.union_comm]
      simp [Finset.insert_eq]

/-- The asset loop preserves deduplication of the asset collection and
its correspondence with the tracked-id set. -/
theorem assetFold_dedup (l : List Asset) (st : TravState)
    (hnd : (st.assets.map fun x => x.sys.id).Nodup)
    (hfs : (st.assets.map fun x => x.sys.id).toFinset = st.trackedAssetIds) :
    ((l.foldl addAsset st).assets.map fun x => x.sys.id).Nodup ∧
    ((l.foldl addAsset st).assets.map fun x => x.sys.id).toFinset =
      (l.foldl addAsset st).trackedAssetIds := by
  induction l generalizing st with
  | nil => exact ⟨hnd, hfs⟩
  | cons a t ih =>
    simp only [List.foldl_cons]
    obtain ⟨h1, h2⟩ := addAsset_dedup st a hnd hfs
    exact ih (addAsset st a) h1 h2

/-- Transfer of the loop invariant `EInv` along field equalities: a state
agreeing with an invariant state on the queue, sets and counters, and
satisfying the deduplication facts, satisfies the invariant. -/
theorem EInv_congr (env : Env) (excluded : List String) (root : String)
    {st st2 : TravState} (h : EInv env excluded root st)
    (hq : st2.queue = st.queue)
    (hqd : st2.entriesQueued = st.entriesQueued)
    (hp : st2.processedEntryIds = st.processedEntryIds)
    (hend : (st2.entries.map fun e => e.sys.id).Nodup)
    (hefs : (st2.entries.map fun e => e.sys.id).toFinset = st2.trackedEntryIds)
    (hand : (st2.assets.map fun a => a.sys.id).Nodup)
    (hafs : (st2.assets.map fun a => a.sys.id).toFinset = st2.trackedAssetIds)
    (hproc : st2.processed = st.processed)
    (htot : st2.total = st.total)
    (hrep : st2.reports = st.reports) :
    EInv env excluded root st2 :=
  { queue_nodup := hq ▸ h.queue_nodup
    queue_sub_queued := by rw [hq, hqd]; exact h.queue_sub_queued
    queue_not_processed := by rw [hq, hp]; exact h.queue_not_processed
    processed_sub_queued := by rw [hp, hqd]; exact h.processed_sub_queued
    queued_covered := by rw [hq, hqd, hp]; exact h.queued_covered
    entries_nodup := hend
    entries_toFinset := hefs
    assets_nodup := hand
    assets_toFinset := hafs
    count_eq := by rw [hproc, hq, htot]; exact h.count_eq
    reports_mono := hrep ▸ h.reports_mono
    reports_le := by rw [hrep, hproc, htot]; exact h.reports_le
    last_report := by rw [hrep, hproc, htot]; exact h.last_report
    queued_justified := by rw [hqd]; exact h.queued_justified }

/-- Tracking one entry leaves every field but `entries` and
`trackedEntryIds` unchanged. -/
theorem trackEntry_fields (st : TravState) (e : Entry) :
    (trackEntry st e).queue = st.queue ∧
    (trackEntry st e).entriesQueued = st.entriesQueued ∧
    (trackEntry st e).processedEntryIds = st.processedEntryIds ∧
    (trackEntry st e).fetchTrace = st.fetchTrace ∧
    (trackEntry st e).assets = st.assets ∧
    (trackEntry st e).trackedAssetIds = st.trackedAssetIds ∧
    (trackEntry st e).processed = st.processed ∧
    (trackEntry st e).total = st.total ∧
    (trackEntry st e).reports = st.reports ∧
    (trackEntry st e).errors = st.errors := by
  unfold trackEntry
  split <;> simp

/-- Tracking one entry preserves deduplication of the entry collection,
grows the tracked-id set monotonically, and ensures the entry id is
tracked afterwards. -/
theorem trackEntry_tracking (st : TravState) (e : Entry)
    (hnd : (st.entries.map fun x => x.sys.id).Nodup)
    (hfs : (st.entries.map fun x => x.sys.id).toFinset = st.trackedEntryIds) :
    ((trackEntry st e).entries.map fun x => x.sys.id).Nodup ∧
    ((trackEntry st e).entries.map fun x => x.sys.id).toFinset =
      (trackEntry st e).trackedEntryIds ∧
    st.trackedEntryIds ⊆ (trackEntry st e).trackedEntryIds ∧
    e.sys.id ∈ (trackEntry st e).trackedEntryIds := by
  by_cases h : e.sys.id ∈ st.trackedEntryIds
  · simp only [trackEntry, if_pos h]
    exact ⟨hnd, hfs, Finset.Subset.refl _, h⟩
  · simp only [trackEntry, if_neg h]
    have hnotmem : e.sys.id ∉ st.entries.map fun x => x.sys.id := by
      rw [← List.mem_toFinset, hfs]; exact h
    refine ⟨?_, ?_, ?_, ?_⟩
    · simp only [List.map_append, List.map_cons, List.map_nil]
      rw [List.nodup_append]
      refine ⟨hnd, List.nodup_singleton _, ?_⟩
      intro x hx hx1
      simp only [List.mem_singleton] at hx1
      exact hnotmem (hx1 ▸ hx)
    · simp only [List.map_append, List.map_cons, List.map_nil,
        List.toFinset_append, List.toFinset_cons, List.toFinset_nil]
      rw [hfs, Finset.union_comm]
      simp [Finset.insert_eq]
    · exact Finset.subset_insert _ _
    · exact Finset.mem_insert_self _ _

/-- Queueing leaves the result collections, the processed set, the fetch
trace and the processed counter unchanged. -/
theorem queueEntry_fields (excluded : List String) (st : TravState) (e : Entry) :
    (queueEntry excluded st e).entries = st.entries ∧
    (queueEntry excluded st e).trackedEntryIds = st.trackedEntryIds ∧
    (queueEntry excluded st e).processedEntryIds = st.processedEntryIds ∧
    (queueEntry excluded st e).fetchTrace = st.fetchTrace ∧
    (queueEntry excluded st e).assets = st.assets ∧
    (queueEntry excluded st e).trackedAssetIds = st.trackedAssetIds ∧
    (queueEntry excluded st e).processed = st.processed ∧
    (queueEntry excluded st e).errors = st.errors := by
  unfold queueEntry
  split <;> simp

/-- The queueing step preserves the loop invariant, grows the queued set
monotonically, and only appends to the report list. -/
theorem queueEntry_einv (env : Env) (excluded : List String) (root : String)
    (st : TravState) (e : Entry)
    (hinv : EInv env excluded root st)
    (hsrc : ∃ srcId, e ∈ (env srcId).entriesOf) :
    EInv env excluded root (queueEntry excluded st e) ∧
    st.entriesQueued ⊆ (queueEntry excluded st e).entriesQueued ∧
    (∃ rs, (queueEntry excluded st e).reports = st.reports ++ rs) := by
  by_cases hq : e.contentType ∉ excluded ∧ e.sys.id ∉ st.entriesQueued
  · simp only [queueEntry, if_pos hq]
    obtain ⟨hexcl, hnew⟩ := hq
    have hple : st.processed ≤ st.total := by
      have := hinv.count_eq; omega
    refine ⟨?_, ?_, ?_⟩
    · refine
        { queue_nodup := ?_, queue_sub_queued := ?_, queue_not_processed := ?_
          processed_sub_queued := ?_, queued_covered := ?_
          entries_nodup := hinv.entries_nodup
          entries_toFinset := hinv.entries_toFinset
          assets_nodup := hinv.assets_nodup
          assets_toFinset := hinv.assets_toFinset
          count_eq := ?_, reports_mono := ?_, reports_le := ?_
          last_report := ?_, queued_justified := ?_ }
      · rw [List.nodup_append]
        refine ⟨hinv.queue_nodup, List.nodup_singleton _, ?_⟩
        intro x hx hx1
        simp only [List.mem_singleton] at hx1
        exact hnew (hx1 ▸ hinv.queue_sub_queued x hx)
      · intro x hx
        rcases List.mem_append.1 hx with hx | hx
        · exact Finset.mem_insert_of_mem (hinv.queue_sub_queued x hx)
        · simp only [List.mem_singleton] at hx
          rw [hx]; exact Finset.mem_insert_self _ _
      · intro x hx
        rcases List.mem_append.1 hx with hx | hx
        · exact hinv.queue_not_processed x hx
        · simp only [List.mem_singleton] at hx
          rw [hx]
          intro hmem
          exact hnew (hinv.processed_sub_queued hmem)
      · exact hinv.processed_sub_queued.trans (Finset.subset_insert _ _)
      · intro x hx
        rcases Finset.mem_insert.1 hx with hx | hx
        · right; rw [hx]; exact List.mem_append_right _ (List.mem_singleton_self _)
        · rcases hinv.queued_covered x hx with h | h
          · exact Or.inl h
          · exact Or.inr (List.mem_append_left _ h)
      · simp only [List.length_append, List.length_singleton]
        have := hinv.count_eq; omega
      · rw [List.pairwise_append]
        refine ⟨hinv.reports_mono, List.pairwise_singleton _ _, ?_⟩
        intro r hr r2 hr2
        simp only [List.mem_singleton] at hr2
        obtain ⟨h1, h2, _⟩ := hinv.reports_le r hr
        rw [hr2]
        exact ⟨h1, h2.trans (Nat.le_succ _)⟩
      · intro r hr
        rcases List.mem_append.1 hr with hr | hr
        · obtain ⟨h1, h2, h3⟩ := hinv.reports_le r hr
          exact ⟨h1, h2.trans (Nat.le_succ _), h3⟩
        · simp only [List.mem_singleton] at hr
          rw [hr]
          exact ⟨Nat.le_refl _, Nat.le_refl _, hple.trans (Nat.le_succ _)⟩
      · right
        exact List.getLast?_concat _
      · intro x hx
        rcases Finset.mem_insert.1 hx with hx | hx
        · obtain ⟨srcId, hmem⟩ := hsrc
          exact Or.inr ⟨srcId, e, hmem, hx.symm, hexcl⟩
        · exact hinv.queued_justified x hx
    · exact Finset.subset_insert _ _
    · exact ⟨[(st.processed, st.total + 1)], rfl⟩
  · simp only [queueEntry, if_neg hq]
    exact ⟨hinv, Finset.Subset.refl _, [], by simp⟩

/-- One entry-loop iteration: preserves the loop invariant, leaves the
trace/processed/error fields unchanged, tracks the entry id, and grows
tracked and queued sets monotonically. -/
theorem addEntry_step (env : Env) (excluded : List String) (root : String)
    (st : TravState) (e : Entry)
    (hinv : EInv env excluded root st)
    (hsrc : ∃ srcId, e ∈ (env srcId).entriesOf) :
    EInv env excluded root (addEntry excluded st e) ∧
    (addEntry excluded st e).fetchTrace = st.fetchTrace ∧
    (addEntry excluded st e).processedEntryIds = st.processedEntryIds ∧
    (addEntry excluded st e).errors = st.errors ∧
    (addEntry excluded st e).processed = st.processed ∧
    (addEntry excluded st e).assets = st.assets ∧
    (addEntry excluded st e).trackedAssetIds = st.trackedAssetIds ∧
    st.trackedEntryIds ⊆ (addEntry excluded st e).trackedEntryIds ∧
    e.sys.id ∈ (addEntry excluded st e).trackedEntryIds ∧
    st.entriesQueued ⊆ (addEntry excluded st e).entriesQueued ∧
    (∃ rs, (addEntry excluded st e).reports = st.reports ++ rs) := by
  obtain ⟨tq, tqd, tp, tf, ta, tta, tpr, tt, trep, terr⟩ := trackEntry_fields st e
  obtain ⟨hnd1, hfs1, htmono, htmem⟩ :=
    trackEntry_tracking st e hinv.entries_nodup hinv.entries_toFinset
  have hinv1 : EInv env excluded root (trackEntry st e) :=
    EInv_congr env excluded root hinv tq tqd tp hnd1 hfs1
      (by rw [ta]; exact hinv.assets_nodup)
      (by rw [ta, tta]; exact hinv.assets_toFinset)
      tpr tt trep
  obtain ⟨hinv2, hqmono, rs, hrs⟩ :=
    queueEntry_einv env excluded root (trackEntry st e) e hinv1 hsrc
  obtain ⟨qe, qt, qp, qf, qa, qta, qpr, qerr⟩ :=
    queueEntry_fields excluded (trackEntry st e) e
  unfold addEntry
  refine ⟨hinv2, qf.trans tf, qp.trans tp, qerr.trans terr, qpr.trans tpr,
    qa.trans ta, qta.trans tta, ?_, ?_, ?_, ⟨rs, by rw [hrs, trep]⟩⟩
  · rw [qt]; exact htmono
  · rw [qt]; exact htmem
  · rw [tqd] at hqmono; exact hqmono

/-- The entry loop of one node visit: preserves the loop invariant,
leaves trace/processed/error fields unchanged, tracks every looped entry
id, and grows tracked and queued sets monotonically. -/
theorem entryFold_step (env : Env) (excluded : List String) (root : String)
    (l : List Entry) (st : TravState)
    (hinv : EInv env excluded root st)
    (hsrc : ∀ e ∈ l, ∃ srcId, e ∈ (env srcId).entriesOf) :
    EInv env excluded root (l.foldl (addEntry excluded) st) ∧
    (l.foldl (addEntry excluded) st).fetchTrace = st.fetchTrace ∧
    (l.foldl (addEntry excluded) st).processedEntryIds = st.processedEntryIds ∧
    (l.foldl (addEntry excluded) st).errors = st.errors ∧
    (l.foldl (addEntry excluded) st).processed = st.processed ∧
    (l.foldl (addEntry excluded) st).assets = st.assets ∧
    (l.foldl (addEntry excluded) st).trackedAssetIds = st.trackedAssetIds ∧
    st.trackedEntryIds ⊆ (l.foldl (addEntry excluded) st).trackedEntryIds ∧
    (∀ e ∈ l, e.sys.id ∈ (l.foldl (addEntry excluded) st).trackedEntryIds) ∧
    st.entriesQueued ⊆ (l.foldl (addEntry excluded) st).entriesQueued ∧
    (∃ rs, (l.foldl (addEntry excluded) st).reports = st.reports ++ rs) := by
  induction l generalizing st with
  | nil =>
    refine ⟨hinv, rfl, rfl, rfl, rfl, rfl, rfl, Finset.Subset.refl _, ?_,
      Finset.Subset.refl _, [], by simp⟩
    intro e he
    exact absurd he (List.not_mem_nil e)
  | cons a t ih =>
    obtain ⟨ainv, af, ap, aerr, apr, aas, ata, atm, amem, aqm, ars, hars⟩ :=
      addEntry_step env excluded root st a hinv (hsrc a (List.mem_cons_self a t))
    obtain ⟨finv, ff, fp, ferr, fpr, fas, fta, ftm, fmem, fqm, frs, hfrs⟩ :=
      ih (addEntry excluded st a) ainv
        (fun e he => hsrc e (List.mem_cons_of_mem a he))
    simp only [List.foldl_cons]
    refine ⟨finv, ff.trans af, fp.trans ap, ferr.trans aerr, fpr.trans apr,
      fas.trans aas, fta.trans ata, atm.trans ftm, ?_, aqm.trans fqm,
      ⟨ars ++ frs, by rw [hfrs, hars, List.append_assoc]⟩⟩
    intro e he
    rcases List.mem_cons.1 he with he | he
    · rw [he]; exact ftm amem
    · exact fmem e he

/-- Popping the head of the queue, marking it processed and reporting
progress preserves the loop invariant `EInv`. -/
theorem pop_einv (env : Env) (excluded : List String) (root : String)
    (st : TravState) (c : String) (rest : List String)
    (hinv : EInv env excluded root st) (hq : st.queue = c :: rest) :
    EInv env excluded root
      { st with queue := rest,
                processedEntryIds := insert c st.processedEntryIds,
                fetchTrace := st.fetchTrace ++ [c],
                processed := st.processed + 1,
                reports := st.reports ++ [(st.processed + 1, st.total)] } := by
  have hcq : c ∈ st.queue := by rw [hq]; exact List.mem_cons_self c rest
  have hnd : (c :: rest).Nodup := hq ▸ hinv.queue_nodup
  have hcrest : c ∉ rest := (List.nodup_cons.1 hnd).1
  have hrestnd : rest.Nodup := (List.nodup_cons.1 hnd).2
  have hcount : st.processed + (rest.length + 1) = st.total := by
    have h := hinv.count_eq
    rw [hq] at h
    simpa using h
  refine
    { queue_nodup := hrestnd, queue_sub_queued := ?_
      queue_not_processed := ?_, processed_sub_queued := ?_
      queued_covered := ?_
      entries_nodup := hinv.entries_nodup
      entries_toFinset := hinv.entries_toFinset
      assets_nodup := hinv.assets_nodup
      assets_toFinset := hinv.assets_toFinset
      count_eq := ?_, reports_mono := ?_, reports_le := ?_
      last_report := ?_, queued_justified := hinv.queued_justified }
  · intro x hx
    exact hinv.queue_sub_queued x (by rw [hq]; exact List.mem_cons_of_mem c hx)
  · intro x hx hmem
    rcases Finset.mem_insert.1 hmem with h | h
    · exact hcrest (h ▸ hx)
    · exact hinv.queue_not_processed x
        (by rw [hq]; exact List.mem_cons_of_mem c hx) h
  · exact Finset.insert_subset_iff.2
      ⟨hinv.queue_sub_queued c hcq, hinv.processed_sub_queued⟩
  · intro x hx
    rcases hinv.queued_covered x hx with h | h
    · exact Or.inl (Finset.mem_insert_of_mem h)
    · rw [hq] at h
      rcases List.mem_cons.1 h with h | h
      · exact Or.inl (h ▸ Finset.mem_insert_self c st.processedEntryIds)
      · exact Or.inr h
  · show st.processed + 1 + rest.length = st.total
    omega
  · rw [List.pairwise_append]
    refine ⟨hinv.reports_mono, List.pairwise_singleton _ _, ?_⟩
    intro r hr r2 hr2
    simp only [List.mem_singleton] at hr2
    obtain ⟨h1, h2, _⟩ := hinv.reports_le r hr
    rw [hr2]
    exact ⟨h1.trans (Nat.le_succ _), h2⟩
  · intro r hr
    rcases List.mem_append.1 hr with hr | hr
    · obtain ⟨h1, h2, h3⟩ := hinv.reports_le r hr
      exact ⟨h1.trans (Nat.le_succ _), h2, h3⟩
    · simp only [List.mem_singleton] at hr
      rw [hr]
      exact ⟨Nat.le_refl _, Nat.le_refl _, by omega⟩
  · right
    exact List.getLast?_concat _

/-- One loop iteration of the traversal preserves the full invariant and
grows the queued set monotonically. -/
theorem stepVisit_inv (env : Env) (excluded : List String) (root : String)
    (st : TravState) (c : String) (rest : List String)
    (hinv : Inv env excluded root st) (hq : st.queue = c :: rest) :
    Inv env excluded root (stepVisit env excluded st c rest) ∧
    st.entriesQueued ⊆ (stepVisit env excluded st c rest).entriesQueued := by
  have hcq : c ∈ st.queue := by rw [hq]; exact List.mem_cons_self c rest
  have hcnp : c ∉ st.processedEntryIds := hinv.queue_not_processed c hcq
  have hcnt : c ∉ st.fetchTrace := by
    intro h
    exact hcnp (hinv.trace_toFinset ▸ List.mem_toFinset.2 h)
  have htrnd : (st.fetchTrace ++ [c]).Nodup := by
    rw [List.nodup_append]
    refine ⟨hinv.trace_nodup, List.nodup_singleton _, ?_⟩
    intro x hx hx1
    simp only [List.mem_singleton] at hx1
    exact hcnt (hx1 ▸ hx)
  have htrfs : (st.fetchTrace ++ [c]).toFinset =
      insert c st.processedEntryIds := by
    rw [List.toFinset_append]
    simp only [List.toFinset_cons, List.toFinset_nil, insert_emptyc_eq]
    rw [hinv.trace_toFinset, Finset.union_comm]
    simp [Finset.insert_eq]
  have hA := pop_einv env excluded root st c rest hinv.toEInv hq
  simp only [stepVisit, if_neg hcnp]
  cases henv : env c with
  | failure msg =>
    simp only []
    constructor
    · refine
        { toEInv := ?_, trace_nodup := htrnd, trace_toFinset := htrfs
          reports_trace := ?_, responses_included := ?_
          failures_recorded := ?_ }
      · exact EInv_congr env excluded root hA rfl rfl rfl hA.entries_nodup
          hA.entries_toFinset hA.assets_nodup hA.assets_toFinset rfl rfl rfl
      · intro h
        simp at h
      · intro y hy e he
        rcases List.mem_append.1 hy with hy | hy
        · exact hinv.responses_included y hy e he
        · simp only [List.mem_singleton] at hy
          subst hy
          rw [henv] at he
          simp [FetchResult.entriesOf] at he
      · intro y hy msg0 hmsg
        rcases List.mem_append.1 hy with hy | hy
        · exact List.mem_append_left _ (hinv.failures_recorded y hy msg0 hmsg)
        · simp only [List.mem_singleton] at hy
          subst hy
          rw [henv] at hmsg
          injection hmsg with h
          subst h
          exact List.mem_append_right _ (List.mem_singleton_self _)
    · exact Finset.Subset.refl _
  | nullResponse =>
    simp only []
    constructor
    · refine
        { toEInv := ?_, trace_nodup := htrnd, trace_toFinset := htrfs
          reports_trace := ?_, responses_included := ?_
          failures_recorded := ?_ }
      · exact EInv_congr env excluded root hA rfl rfl rfl hA.entries_nodup
          hA.entries_toFinset hA.assets_nodup hA.assets_toFinset rfl rfl rfl
      · intro h
        simp at h
      · intro y hy e he
        rcases List.mem_append.1 hy with hy | hy
        · exact hinv.responses_included y hy e he
        · simp only [List.mem_singleton] at hy
          subst hy
          rw [henv] at he
          simp [FetchResult.entriesOf] at he
      · intro y hy msg0 hmsg
        rcases List.mem_append.1 hy with hy | hy
        · exact hinv.failures_recorded y hy msg0 hmsg
        · simp only [List.mem_singleton] at hy
          subst hy
          rw [henv] at hmsg
          exact FetchResult.noConfusion hmsg
    · exact Finset.Subset.refl _
  | ok refs =>
    simp only []
    have hA2 : EInv env excluded root
        { st with queue := rest,
                  processedEntryIds := insert c st.processedEntryIds,
                  fetchTrace := st.fetchTrace ++ [c],
                  processed := st.processed + 1,
                  reports := st.reports ++ [(st.processed + 1, st.total)],
                  errors := st.errors ++ refs.errors } :=
      EInv_congr env excluded root hA rfl rfl rfl hA.entries_nodup
        hA.entries_toFinset hA.assets_nodup hA.assets_toFinset rfl rfl rfl
    obtain ⟨f1, f2, f3, f4, f5, f6, f7, f8, f9, f10⟩ :=
      assetFold_fields refs.assets
        { st with queue := rest,
                  processedEntryIds := insert c st.processedEntryIds,
                  fetchTrace := st.fetchTrace ++ [c],
                  processed := st.processed + 1,
                  reports := st.reports ++ [(st.processed + 1, st.total)],
                  errors := st.errors ++ refs.errors }
    obtain ⟨and3, afs3⟩ :=
      assetFold_dedup refs.assets _ hA2.assets_nodup hA2.assets_toFinset
    have hA3 : EInv env excluded root
        (refs.assets.foldl addAsset
          { st with queue := rest,
                    processedEntryIds := insert c st.processedEntryIds,
                    fetchTrace := st.fetchTrace ++ [c],
                    processed := st.processed + 1,
                    reports := st.reports ++ [(st.processed + 1, st.total)],
                    errors := st.errors ++ refs.errors }) :=
      EInv_congr env excluded root hA2 f1 f2 f3
        (by rw [f5]; exact hA2.entries_nodup)
        (by rw [f5, f6]; exact hA2.entries_toFinset)
        and3 afs3 f7 f8 f9
    have hsrc : ∀ e ∈ refs.entries, ∃ srcId, e ∈ (env srcId).entriesOf := by
      intro e he
      refine ⟨c, ?_⟩
      rw [henv]
      exact he
    obtain ⟨finv, ff, fp, ferr, fpr, fas, fta, ftm, fmem, fqm, frs, hfrs⟩ :=
      entryFold_step env excluded root refs.entries _ hA3 hsrc
    constructor
    · refine
        { toEInv := finv, trace_nodup := ?_, trace_toFinset := ?_
          reports_trace := ?_, responses_included := ?_
          failures_recorded := ?_ }
      · rw [ff, f4]
        exact htrnd
      · rw [ff, f4, fp, f3]
        exact htrfs
      · intro h
        rw [hfrs, f9] at h
        simp at h
      · intro y hy e he
        rw [ff, f4] at hy
        rcases List.mem_append.1 hy with hy | hy
        · refine ftm ?_
          rw [f6]
          exact hinv.responses_included y hy e he
        · simp only [List.mem_singleton] at hy
          subst hy
          rw [henv] at he
          exact fmem e he
      · intro y hy msg0 hmsg
        rw [ff, f4] at hy
        rcases List.mem_append.1 hy with hy | hy
        · rw [ferr, f10]
          exact List.mem_append_left _ (hinv.failures_recorded y hy msg0 hmsg)
        · simp only [List.mem_singleton] at hy
          subst hy
          rw [henv] at hmsg
          exact FetchResult.noConfusion hmsg
    · intro x hx
      refine fqm ?_
      rw [f2]
      exact hx

/-- Queueing one entry keeps the queued set inside the id universe and
leaves the termination measure (queue length plus undiscovered ids)
unchanged. -/
theorem queueEntry_measure (excluded : List String) (st : TravState)
    (e : Entry) (A : Finset String)
    (hbound : st.entriesQueued ⊆ A) (hx : e.sys.id ∈ A) :
    (queueEntry excluded st e).entriesQueued ⊆ A ∧
    (queueEntry excluded st e).queue.length +
      (A.card - (queueEntry excluded st e).entriesQueued.card) =
    st.queue.length + (A.card - st.entriesQueued.card) := by
  by_cases hq : e.contentType ∉ excluded ∧ e.sys.id ∉ st.entriesQueued
  · simp only [queueEntry, if_pos hq]
    have hsub : insert e.sys.id st.entriesQueued ⊆ A :=
      Finset.insert_subset_iff.2 ⟨hx, hbound⟩
    have hcard : (insert e.sys.id st.entriesQueued).card =
        st.entriesQueued.card + 1 := Finset.card_insert_of_not_mem hq.2
    have hle : st.entriesQueued.card + 1 ≤ A.card := by
      rw [← hcard]
      exact Finset.card_le_card hsub
    refine ⟨hsub, ?_⟩
    simp only [List.length_append, List.length_singleton, hcard]
    omega
  · simp only [queueEntry, if_neg hq]
    exact ⟨hbound, trivial⟩

/-- The entry loop body keeps the queued set inside the id universe and
leaves the termination measure unchanged. -/
theorem addEntry_measure (excluded : List String) (st : TravState)
    (e : Entry) (A : Finset String)
    (hbound : st.entriesQueued ⊆ A) (hx : e.sys.id ∈ A) :
    (addEntry excluded st e).entriesQueued ⊆ A ∧
    (addEntry excluded st e).queue.length +
      (A.card - (addEntry excluded st e).entriesQueued.card) =
    st.queue.length + (A.card - st.entriesQueued.card) := by
  obtain ⟨tq, tqd, _, _, _, _, _, _, _, _⟩ := trackEntry_fields st e
  have hb1 : (trackEntry st e).entriesQueued ⊆ A := by rw [tqd]; exact hbound
  obtain ⟨h1, h2⟩ := queueEntry_measure excluded (trackEntry st e) e A hb1 hx
  refine ⟨h1, ?_⟩
  simp only [addEntry]
  rw [h2, tq, tqd]

/-- The entry loop keeps the queued set inside the id universe and leaves
the termination measure unchanged. -/
theorem entryFold_measure (excluded : List String) (l : List Entry)
    (st : TravState) (A : Finset String)
    (hbound : st.entriesQueued ⊆ A) (hl : ∀ e ∈ l, e.sys.id ∈ A) :
    (l.foldl (addEntry excluded) st).entriesQueued ⊆ A ∧
    (l.foldl (addEntry excluded) st).queue.length +
      (A.card - (l.foldl (addEntry excluded) st).entriesQueued.card) =
    st.queue.length + (A.card - st.entriesQueued.card) := by
  induction l generalizing st with
  | nil => exact ⟨hbound, rfl⟩
  | cons a t ih =>
    obtain ⟨h1, h2⟩ := addEntry_measure excluded st a A hbound
      (hl a (List.mem_cons_self a t))
    obtain ⟨g1, g2⟩ := ih (addEntry excluded st a) h1
      (fun e he => hl e (List.mem_cons_of_mem a he))
    simp only [List.foldl_cons]
    exact ⟨g1, g2.trans h2⟩

/-- One loop iteration keeps the queued set inside the id universe and
strictly decreases the termination measure. -/
theorem stepVisit_measure (env : Env) (excluded : List String)
    (st : TravState) (c : String) (rest : List String) (A : Finset String)
    (hq : st.queue = c :: rest) (hcnp : c ∉ st.processedEntryIds)
    (hbound : st.entriesQueued ⊆ A) (henvb : EnvBound env A) :
    (stepVisit env excluded st c rest).entriesQueued ⊆ A ∧
    (stepVisit env excluded st c rest).queue.length +
      (A.card - (stepVisit env excluded st c rest).entriesQueued.card) + 1 =
    st.queue.length + (A.card - st.entriesQueued.card) := by
  simp only [stepVisit, if_neg hcnp]
  cases henv : env c with
  | failure msg =>
    simp only []
    refine ⟨hbound, ?_⟩
    rw [hq]
    simp only [List.length_cons]
    omega
  | nullResponse =>
    simp only []
    refine ⟨hbound, ?_⟩
    rw [hq]
    simp only [List.length_cons]
    omega
  | ok refs =>
    simp only []
    obtain ⟨f1, f2, _, _, _, _, _, _, _, _⟩ :=
      assetFold_fields refs.assets
        { st with queue := rest,
                  processedEntryIds := insert c st.processedEntryIds,
                  fetchTrace := st.fetchTrace ++ [c],
                  processed := st.processed + 1,
                  reports := st.reports ++ [(st.processed + 1, st.total)],
                  errors := st.errors ++ refs.errors }
    have hl : ∀ e ∈ refs.entries, e.sys.id ∈ A := by
      intro e he
      refine henvb c e ?_
      rw [henv]
      exact he
    have hb3 : (refs.assets.foldl addAsset
        { st with queue := rest,
                  processedEntryIds := insert c st.processedEntryIds,
                  fetchTrace := st.fetchTrace ++ [c],
                  processed := st.processed + 1,
                  reports := st.reports ++ [(st.processed + 1, st.total)],
                  errors := st.errors ++ refs.errors }).entriesQueued ⊆ A := by
      rw [f2]
      exact hbound
    obtain ⟨g1, g2⟩ := entryFold_measure excluded refs.entries _ A hb3 hl
    refine ⟨g1, ?_⟩
    rw [g2, f1, f2, hq]
    simp only [List.length_cons]
    omega

/-- The traversal loop preserves the full invariant and grows the queued
set monotonically. -/
theorem traverse_inv (env : Env) (excluded : List String) (root : String)
    (fuel : Nat) (st : TravState) (hinv : Inv env excluded root st) :
    Inv env excluded root (traverse env excluded fuel st) ∧
    st.entriesQueued ⊆ (traverse env excluded fuel st).entriesQueued := by
  induction fuel generalizing st with
  | zero => exact ⟨hinv, Finset.Subset.refl _⟩
  | succ fuel ih =>
    cases hq : st.queue with
    | nil =>
      simp only [traverse, hq]
      exact ⟨hinv, Finset.Subset.refl _⟩
    | cons c rest =>
      have hstep := stepVisit_inv env excluded root st c rest hinv hq
      have hrec := ih (stepVisit env excluded st c rest) hstep.1
      simp only [traverse, hq]
      exact ⟨hrec.1, hstep.2.trans hrec.2⟩

/-- Termination: with fuel at least the queue length plus the number of
not-yet-discovered ids of the finite universe, the traversal loop reaches
its exit condition (empty queue). -/
theorem traverse_empties (env : Env) (excluded : List String) (root : String)
    (A : Finset String) (fuel : Nat) (st : TravState)
    (hinv : Inv env excluded root st)
    (hbound : st.entriesQueued ⊆ A) (henvb : EnvBound env A)
    (hfuel : st.queue.length + (A.card - st.entriesQueued.card) ≤ fuel) :
    (traverse env excluded fuel st).queue = [] := by
  induction fuel generalizing st with
  | zero =>
    have hlen : st.queue.length = 0 := by omega
    simp only [traverse]
    exact List.length_eq_zero.1 hlen
  | succ fuel ih =>
    cases hq : st.queue with
    | nil => simp only [traverse, hq]
    | cons c rest =>
      have hcnp : c ∉ st.processedEntryIds :=
        hinv.queue_not_processed c (by rw [hq]; exact List.mem_cons_self c rest)
      obtain ⟨hb2, hm⟩ :=
        stepVisit_measure env excluded st c rest A hq hcnp hbound henvb
      have hinv2 := (stepVisit_inv env excluded root st c rest hinv hq).1
      simp only [traverse, hq]
      exact ih (stepVisit env excluded st c rest) hinv2 hb2 (by omega)

/-- The initial state of the traversal satisfies the full invariant. -/
theorem initState_inv (env : Env) (excluded : List String) (root : String) :
    Inv env excluded root (initState root) := by
  refine
    { toEInv := ?_, trace_nodup := ?_, trace_toFinset := ?_
      reports_trace := ?_, responses_included := ?_
      failures_recorded := ?_ } <;>
    try simp [initState]
  refine
    { queue_nodup := ?_, queue_sub_queued := ?_, queue_not_processed := ?_
      processed_sub_queued := ?_, queued_covered := ?_, entries_nodup := ?_
      entries_toFinset := ?_, assets_nodup := ?_, assets_toFinset := ?_
      count_eq := ?_, reports_mono := ?_, reports_le := ?_
      last_report := ?_, queued_justified := ?_ } <;>
    simp [initState]

/-- Main characterization of a complete collection run: with any fuel of
at least the size of a finite id universe covering the environment, the
invariant holds at the final state, the queue is empty, and the root id
has been queued. -/
theorem collect_spec (env : Env) (excluded : List String) (root : String)
    (A : Finset String) (fuel : Nat)
    (henvb : EnvBound env A) (hroot : root ∈ A) (hfuel : A.card ≤ fuel) :
    Inv env excluded root (collect env excluded root fuel) ∧
    (collect env excluded root fuel).queue = [] ∧
    root ∈ (collect env excluded root fuel).entriesQueued := by
  have hbound : (initState root).entriesQueued ⊆ A := by
    simp only [initState]
    exact Finset.singleton_subset_iff.2 hroot
  have hcardpos : 1 ≤ A.card := Finset.card_pos.2 ⟨root, hroot⟩
  have hμ : (initState root).queue.length +
      (A.card - (initState root).entriesQueued.card) ≤ fuel := by
    simp only [initState, List.length_singleton, Finset.card_singleton]
    omega
  obtain ⟨hinv, hmono⟩ := traverse_inv env excluded root fuel (initState root)
    (initState_inv env excluded root)
  refine ⟨hinv, ?_, ?_⟩
  · exact traverse_empties env excluded root A fuel (initState root)
      (initState_inv env excluded root) hbound henvb hμ
  · refine hmono ?_
    simp [initState]

/-- Entry with id `A` and an unexcluded content type, for concrete runs. -/
def entA : Entry := { sys := { id := "A" }, contentType := "block" }

/-- Entry with id `B` and an unexcluded content type, for concrete runs. -/
def entB : Entry := { sys := { id := "B" }, contentType := "block" }

/-- A two-node cyclic reference graph: `A` references `B` and `B`
references `A`. -/
def envAB : Env := fun id =>
  if id = "A" then .ok { errors := [], assets := [], entries := [entB] }
  else if id = "B" then .ok { errors := [], assets := [], entries := [entA] }
  else .nullResponse

/-- Claim C1: on every reference graph with a finite id universe —
cycles and self-references included — the traversal reaches its normal
exit condition (empty queue, hence termination of the `while` loop), and
every id that was ever enqueued (the root plus each discovered
unexcluded entry, i.e. the ids the collector visits) has exactly one
references fetch issued for it. -/
theorem c1_cycle_traversal_terminates_each_id_fetched_once
    (env : Env) (excluded : List String) (root : String)
    (A : Finset String) (fuel : Nat)
    (henvb : EnvBound env A) (hroot : root ∈ A) (hfuel : A.card ≤ fuel) :
    (collect env excluded root fuel).queue = [] ∧
    ∀ id ∈ (collect env excluded root fuel).entriesQueued,
      (collect env excluded root fuel).fetchTrace.count id = 1 := by
  obtain ⟨hinv, hempty, _⟩ :=
    collect_spec env excluded root A fuel henvb hroot hfuel
  refine ⟨hempty, ?_⟩
  intro id hid
  rcases hinv.queued_covered id hid with h | h
  · refine List.count_eq_one_of_mem hinv.trace_nodup ?_
    rw [← List.mem_toFinset, hinv.trace_toFinset]
    exact h
  · rw [hempty] at h
    exact absurd h (List.not_mem_nil id)

/-- Witness for C1 at the concrete two-node cycle `A ↔ B`: the traversal
terminates with an empty queue and fetches each of `A` and `B` exactly
once. -/
theorem c1_witness :
    EnvBound envAB {"A", "B"} ∧ "A" ∈ ({"A", "B"} : Finset String) ∧
    ({"A", "B"} : Finset String).card ≤ 2 ∧
    ((collect envAB EXCLUDED_CONTENT_TYPES "A" 2).queue = [] ∧
     ∀ id ∈ (collect envAB EXCLUDED_CONTENT_TYPES "A" 2).entriesQueued,
       (collect envAB EXCLUDED_CONTENT_TYPES "A" 2).fetchTrace.count id = 1) := by
  have hb : EnvBound envAB {"A", "B"} := by
    intro id e he
    simp only [envAB] at he
    by_cases h1 : id = "A"
    · simp only [if_pos h1, FetchResult.entriesOf] at he
      simp only [List.mem_singleton] at he
      subst he
      decide
    · simp only [if_neg h1] at he
      by_cases h2 : id = "B"
      · simp only [if_pos h2, FetchResult.entriesOf] at he
        simp only [List.mem_singleton] at he
        subst he
        decide
      · simp only [if_neg h2, FetchResult.entriesOf] at he
        exact absurd he (List.not_mem_nil e)
  exact ⟨hb, by decide, by decide,
    c1_cycle_traversal_terminates_each_id_fetched_once envAB
      EXCLUDED_CONTENT_TYPES "A" {"A", "B"} 2 hb (by decide) (by decide)⟩

/-- Asset with id `X`, referenced by several entries in concrete runs. -/
def astX : Asset := { sys := { id := "X" } }

/-- Entries `E1`, `E2`, `E3` with unexcluded content types. -/
def entE1 : Entry := { sys := { id := "E1" }, contentType := "block" }

/-- Second of the three entries referencing the shared asset. -/
def entE2 : Entry := { sys := { id := "E2" }, contentType := "block" }

/-- Third of the three entries referencing the shared asset. -/
def entE3 : Entry := { sys := { id := "E3" }, contentType := "block" }

/-- A graph where the root `R` references three distinct entries and each
of them references the same asset `X`. -/
def envSharedAsset : Env := fun id =>
  if id = "R" then
    .ok { errors := [], assets := [], entries := [entE1, entE2, entE3] }
  else if id = "E1" ∨ id = "E2" ∨ id = "E3" then
    .ok { errors := [], assets := [astX], entries := [] }
  else .nullResponse

/-- Claim C4: for every environment, root and fuel, the universe produced
by the traversal contains no duplicate entry ids and no duplicate asset
ids, the fetch trace repeats no id (re-encountering a visited id never
re-fetches) and the queue repeats no id (never re-queued); and in the
concrete graph where three distinct entries each reference the same asset
`X`, the resulting universe contains exactly one copy of `X`. -/
theorem c4_universe_deduplicated :
    (∀ (env : Env) (excluded : List String) (root : String) (fuel : Nat),
      ((collect env excluded root fuel).entries.map fun e => e.sys.id).Nodup ∧
      ((collect env excluded root fuel).assets.map fun a => a.sys.id).Nodup ∧
      (collect env excluded root fuel).fetchTrace.Nodup ∧
      (collect env excluded root fuel).queue.Nodup) ∧
    ((collect envSharedAsset EXCLUDED_CONTENT_TYPES "R" 5).assets.map
      fun a => a.sys.id) = ["X"] := by
  constructor
  · intro env excluded root fuel
    obtain ⟨hinv0, _⟩ := traverse_inv env excluded root fuel (initState root)
      (initState_inv env excluded root)
    have hinv : Inv env excluded root (collect env excluded root fuel) := hinv0
    exact ⟨hinv.entries_nodup, hinv.assets_nodup, hinv.trace_nodup,
      hinv.queue_nodup⟩
  · decide

/-- Entry with id `N` and the excluded content type `navigation`. -/
def entN : Entry := { sys := { id := "N" }, contentType := "navigation" }

/-- Entry with id `Z`, referenced only by the excluded entry `N`. -/
def entZ : Entry := { sys := { id := "Z" }, contentType := "block" }

/-- A graph where the root `R` references the excluded entry `N`, and `N`
references `Z` — reachable only through the excluded entry. -/
def envExcluded : Env := fun id =>
  if id = "R" then .ok { errors := [], assets := [], entries := [entN] }
  else if id = "N" then .ok { errors := [], assets := [], entries := [entZ] }
  else .nullResponse

/-- Claim C5: an entry id `X` (other than the seeded root) occurring in
responses only with an excluded content category is never queued for
expansion and never fetched — so none of its own references enter the
universe through it — while every processed response containing it still
lands it in the result entry set. -/
theorem c5_excluded_entries_included_but_not_expanded
    (env : Env) (excluded : List String) (root X : String) (fuel : Nat)
    (hroot : X ≠ root)
    (hexc : ∀ srcId : String, ∀ e ∈ (env srcId).entriesOf,
      e.sys.id = X → e.contentType ∈ excluded) :
    X ∉ (collect env excluded root fuel).entriesQueued ∧
    X ∉ (collect env excluded root fuel).fetchTrace ∧
    (∀ y ∈ (collect env excluded root fuel).fetchTrace,
      ∀ e ∈ (env y).entriesOf, e.sys.id = X →
        X ∈ ((collect env excluded root fuel).entries.map
          fun e2 => e2.sys.id)) := by
  obtain ⟨hinv0, _⟩ := traverse_inv env excluded root fuel (initState root)
    (initState_inv env excluded root)
  have hinv : Inv env excluded root (collect env excluded root fuel) := hinv0
  have hnq : X ∉ (collect env excluded root fuel).entriesQueued := by
    intro hmem
    rcases hinv.queued_justified X hmem with h | ⟨srcId, e, hm, hid, hct⟩
    · exact hroot h
    · exact hct (hexc srcId e hm hid)
  refine ⟨hnq, ?_, ?_⟩
  · intro hmem
    exact hnq (hinv.processed_sub_queued
      (hinv.trace_toFinset ▸ List.mem_toFinset.2 hmem))
  · intro y hy e he hid
    rw [← hid, ← List.mem_toFinset, hinv.entries_toFinset]
    exact hinv.responses_included y hy e he

/-- Witness for C5 at the concrete graph `R → N(navigation) → Z`: `N` is
never queued and never fetched, yet appears in the result entry set for
the processed response of `R`. -/
theorem c5_witness :
    ("N" : String) ≠ "R" ∧
    (∀ srcId : String, ∀ e ∈ (envExcluded srcId).entriesOf,
      e.sys.id = "N" → e.contentType ∈ EXCLUDED_CONTENT_TYPES) ∧
    ("N" ∉ (collect envExcluded EXCLUDED_CONTENT_TYPES "R" 3).entriesQueued ∧
     "N" ∉ (collect envExcluded EXCLUDED_CONTENT_TYPES "R" 3).fetchTrace ∧
     (∀ y ∈ (collect envExcluded EXCLUDED_CONTENT_TYPES "R" 3).fetchTrace,
       ∀ e ∈ (envExcluded y).entriesOf, e.sys.id = "N" →
         "N" ∈ ((collect envExcluded EXCLUDED_CONTENT_TYPES "R" 3).entries.map
           fun e2 => e2.sys.id))) := by
  have hexc : ∀ srcId : String, ∀ e ∈ (envExcluded srcId).entriesOf,
      e.sys.id = "N" → e.contentType ∈ EXCLUDED_CONTENT_TYPES := by
    intro srcId e he hid
    simp only [envExcluded] at he
    by_cases h1 : srcId = "R"
    · simp only [if_pos h1, FetchResult.entriesOf] at he
      simp only [List.mem_singleton] at he
      subst he
      decide
    · simp only [if_neg h1] at he
      by_cases h2 : srcId = "N"
      · simp only [if_pos h2, FetchResult.entriesOf] at he
        simp only [List.mem_singleton] at he
        subst he
        exact absurd hid (by decide)
      · simp only [if_neg h2, FetchResult.entriesOf] at he
        exact absurd he (List.not_mem_nil e)
  exact ⟨by decide, hexc,
    c5_excluded_entries_included_but_not_expanded envExcluded
      EXCLUDED_CONTENT_TYPES "R" "N" 3 (by decide) hexc⟩

/-- Counterexample to claim C7 as stated: in the two-node graph where `A`
references `B`, the reports before the final one are `[(1,1), (1,2)]`,
and the very first report already has `processed = total = 1` — the
traversal is not complete there (`B` is queued and fetched afterwards),
so it is false that every progress report before completion satisfies
`processed < total`. -/
theorem c7_counterexample :
    (collect envAB EXCLUDED_CONTENT_TYPES "A" 2).reports =
      [(1, 1), (1, 2), (2, 2)] ∧
    ¬ (∀ r ∈ (collect envAB EXCLUDED_CONTENT_TYPES "A" 2).reports.dropLast,
        r.1 < r.2) := by
  constructor
  · decide
  · decide

/-- Claim C7 amended: across every traversal the reported `(processed,
total)` pairs are componentwise non-decreasing and always satisfy
`processed ≤ total`; at traversal completion `processed = total` holds and
the final report carries exactly these completed counters — but
`processed = total` may also hold transiently at an intermediate report,
whenever the queue momentarily empties before a new entry is discovered. -/
theorem c7_progress_monotone_bounded_final
    (env : Env) (excluded : List String) (root : String)
    (A : Finset String) (fuel : Nat)
    (henvb : EnvBound env A) (hroot : root ∈ A) (hfuel : A.card ≤ fuel) :
    ((collect env excluded root fuel).reports.Pairwise fun r1 r2 =>
        r1.1 ≤ r2.1 ∧ r1.2 ≤ r2.2) ∧
    (∀ r ∈ (collect env excluded root fuel).reports, r.1 ≤ r.2) ∧
    (collect env excluded root fuel).processed =
      (collect env excluded root fuel).total ∧
    (collect env excluded root fuel).reports.getLast? =
      some ((collect env excluded root fuel).processed,
            (collect env excluded root fuel).total) := by
  obtain ⟨hinv, hempty, hrootq⟩ :=
    collect_spec env excluded root A fuel henvb hroot hfuel
  have hmt : (collect env excluded root fuel).processed =
      (collect env excluded root fuel).total := by
    have h := hinv.count_eq
    rw [hempty] at h
    simpa using h
  have hne : (collect env excluded root fuel).reports ≠ [] := by
    intro h
    have htr := hinv.reports_trace h
    rcases hinv.queued_covered root hrootq with hp | hq2
    · rw [← hinv.trace_toFinset, htr] at hp
      simp at hp
    · rw [hempty] at hq2
      exact List.not_mem_nil root hq2
  refine ⟨hinv.reports_mono, fun r hr => (hinv.reports_le r hr).2.2, hmt,
    hinv.last_report.resolve_left hne⟩

/-- Witness for the amended C7 at the concrete graph `A → B → A`. -/
theorem c7_witness :
    EnvBound envAB {"A", "B"} ∧ "A" ∈ ({"A", "B"} : Finset String) ∧
    ({"A", "B"} : Finset String).card ≤ 2 ∧
    (((collect envAB EXCLUDED_CONTENT_TYPES "A" 2).reports.Pairwise
        fun r1 r2 => r1.1 ≤ r2.1 ∧ r1.2 ≤ r2.2) ∧
     (∀ r ∈ (collect envAB EXCLUDED_CONTENT_TYPES "A" 2).reports,
        r.1 ≤ r.2) ∧
     (collect envAB EXCLUDED_CONTENT_TYPES "A" 2).processed =
       (collect envAB EXCLUDED_CONTENT_TYPES "A" 2).total ∧
     (collect envAB EXCLUDED_CONTENT_TYPES "A" 2).reports.getLast? =
       some ((collect envAB EXCLUDED_CONTENT_TYPES "A" 2).processed,
             (collect envAB EXCLUDED_CONTENT_TYPES "A" 2).total)) := by
  have hb : EnvBound envAB {"A", "B"} := by
    intro id e he
    simp only [envAB] at he
    by_cases h1 : id = "A"
    · simp only [if_pos h1, FetchResult.entriesOf] at he
      simp only [List.mem_singleton] at he
      subst he
      decide
    · simp only [if_neg h1] at he
      by_cases h2 : id = "B"
      · simp only [if_pos h2, FetchResult.entriesOf] at he
        simp only [List.mem_singleton] at he
        subst he
        decide
      · simp only [if_neg h2, FetchResult.entriesOf] at he
        exact absurd he (List.not_mem_nil e)
  exact ⟨hb, by decide, by decide,
    c7_progress_monotone_bounded_final envAB EXCLUDED_CONTENT_TYPES "A"
      {"A", "B"} 2 hb (by decide) (by decide)⟩

/-- An environment in which every references fetch — the root's
included — throws. -/
def envRootFail : Env := fun _ => .failure "network"

/-- Counterexample to claim C8 as stated: when fetching the root `R`
itself fails, the traversal does not propagate a thrown failure — the
very same catch block as for any other node records a synthetic
collection error keyed to `R` and the loop runs to its normal exit
condition, returning a universe that carries the error. -/
theorem c8_counterexample :
    (collect envRootFail EXCLUDED_CONTENT_TYPES "R" 1).queue = [] ∧
    (collect envRootFail EXCLUDED_CONTENT_TYPES "R" 1).errors =
      [fetchError "R" "network"] ∧
    (collect envRootFail EXCLUDED_CONTENT_TYPES "R" 1).processed = 1 := by
  refine ⟨?_, ?_, ?_⟩ <;> decide

/-- Claim C8 amended: the traversal never throws past its boundary — on
any finite-universe graph it runs to its normal exit condition (empty
queue), and a fetch failure on any node, the root included, is recorded
as a synthetic collection error keyed to that node's id while the
remaining queue continues to be processed. -/
theorem c8_node_failures_recorded_never_thrown
    (env : Env) (excluded : List String) (root : String)
    (A : Finset String) (fuel : Nat)
    (henvb : EnvBound env A) (hroot : root ∈ A) (hfuel : A.card ≤ fuel) :
    (collect env excluded root fuel).queue = [] ∧
    (∀ y ∈ (collect env excluded root fuel).fetchTrace, ∀ msg,
      env y = FetchResult.failure msg →
        fetchError y msg ∈ (collect env excluded root fuel).errors) := by
  obtain ⟨hinv, hempty, _⟩ :=
    collect_spec env excluded root A fuel henvb hroot hfuel
  exact ⟨hempty, hinv.failures_recorded⟩

/-- Witness for the amended C8 at the concrete failing-root graph. -/
theorem c8_witness :
    EnvBound envRootFail {"R"} ∧ "R" ∈ ({"R"} : Finset String) ∧
    ({"R"} : Finset String).card ≤ 1 ∧
    ((collect envRootFail EXCLUDED_CONTENT_TYPES "R" 1).queue = [] ∧
     (∀ y ∈ (collect envRootFail EXCLUDED_CONTENT_TYPES "R" 1).fetchTrace,
       ∀ msg, envRootFail y = FetchResult.failure msg →
         fetchError y msg ∈
           (collect envRootFail EXCLUDED_CONTENT_TYPES "R" 1).errors)) := by
  have hb : EnvBound envRootFail {"R"} := by
    intro id e he
    simp [envRootFail, FetchResult.entriesOf] at he
  exact ⟨hb, by decide, by decide,
    c8_node_failures_recorded_never_thrown envRootFail
      EXCLUDED_CONTENT_TYPES "R" {"R"} 1 hb (by decide) (by decide)⟩

/-- The traversal result record consumed by the classifier
(`IAllReferences` in the source). -/
structure IAllReferences where
  entries : List Entry
  assets : List Asset
  errors : List RefError
  processedEntryIds : Finset String
deriving DecidableEq

/-- Projection of a traversal state onto the returned `IAllReferences`
record. -/
def TravState.toAllReferences (st : TravState) : IAllReferences :=
  { entries := st.entries, assets := st.assets, errors := st.errors,
    processedEntryIds := st.processedEntryIds }

/-- The classified summary (`IReferenceInformation` in the source). -/
structure IReferenceInformation where
  published : Bool
  errors : List RefError
  errorCount : Nat
  entryCount : Nat
  draftEntries : List Entry
  updatedEntries : List Entry
  draftEntryCount : Nat
  updatedEntryCount : Nat
  assetCount : Nat
  draftAssets : List Asset
  updatedAssets : List Asset
  draftAssetCount : Nat
  updatedAssetCount : Nat
deriving DecidableEq, Repr

/-- The truthiness-guarded timestamp comparison of the out-of-date
filters: `publishedDate && dep.publishedAt && dep.publishedAt >
publishedDate` — false whenever either timestamp is absent. -/
def publishedAfter (rootPub depPub : Option Nat) : Bool :=
  match rootPub, depPub with
  | some r, some d => decide (r < d)
  | _, _ => false

/-- The classifier `buildReferenceInformation(entrySys, allReferences)`
of the source: lifecycle of the root (`isPublished && !isUpdated`),
draft/updated partitions of entries and assets, counts, and the
out-of-date downgrade of `published` when some dependency carries a
strictly later `publishedAt` than the root. -/
def buildReferenceInformation (entrySys : SysProps)
    (allReferences : IAllReferences) : IReferenceInformation :=
  let publishedDate := entrySys.publishedAt
  let published := isPublished entrySys && !(isUpdated entrySys)
  let errors := allReferences.errors
  let errorCount := errors.length
  let entries := allReferences.entries
  let entryCount := entries.length
  let draftEntries := entries.filter fun e => isDraft e.sys
  let updatedEntries := entries.filter fun e => isUpdated e.sys
  let draftEntryCount := draftEntries.length
  let updatedEntryCount := updatedEntries.length
  let assets := allReferences.assets
  let assetCount := assets.length
  let draftAssets := assets.filter fun a => isDraft a.sys
  let draftAssetCount := draftAssets.length
  let updatedAssets := assets.filter fun a => isUpdated a.sys
  let updatedAssetCount := updatedAssets.length
  let assetsPublishedAfter :=
    assets.filter fun a => publishedAfter publishedDate a.sys.publishedAt
  let entriesPublishedAfter :=
    entries.filter fun e => publishedAfter publishedDate e.sys.publishedAt
  let isOutOfDate := decide (0 < assetsPublishedAfter.length) ||
    decide (0 < entriesPublishedAfter.length)
  { published := published && !isOutOfDate
    errors := errors
    errorCount := errorCount
    entryCount := entryCount
    draftEntries := draftEntries
    updatedEntries := updatedEntries
    draftEntryCount := draftEntryCount
    updatedEntryCount := updatedEntryCount
    assetCount := assetCount
    draftAssets := draftAssets
    updatedAssets := updatedAssets
    draftAssetCount := draftAssetCount
    updatedAssetCount := updatedAssetCount }

/-- A root `sys` published at time 100, in exactly-published lifecycle
state. -/
def rootSys100 : SysProps :=
  { id := "root", version := 2, publishedVersion := some 1,
    publishedAt := some 100 }

/-- An asset published at time 150, later than the root above. -/
def asset150 : Asset :=
  { sys := { id := "X", version := 2, publishedVersion := some 1,
             publishedAt := some 150 } }

/-- A universe containing only the asset published at time 150. -/
def universe150 : IAllReferences :=
  { entries := [], assets := [asset150], errors := [],
    processedEntryIds := ∅ }

/-- Claim C6: the classifier reports the root as published exactly when
the root's own lifecycle state is published-and-not-updated and no
snapshot in the universe (asset or entry) carries a `publishedAt`
strictly later than the root's `publishedAt`; in particular, for a root
published at 100 with an asset published at 150 in the universe, the
result is not published even though the root's own lifecycle state is
published. -/
theorem c6_published_iff_no_later_dependency :
    (∀ (entrySys : SysProps) (refs : IAllReferences),
      ((buildReferenceInformation entrySys refs).published = true ↔
        ((isPublished entrySys && !(isUpdated entrySys)) = true ∧
         (∀ a ∈ refs.assets,
            publishedAfter entrySys.publishedAt a.sys.publishedAt = false) ∧
         (∀ e ∈ refs.entries,
            publishedAfter entrySys.publishedAt e.sys.publishedAt = false)))) ∧
    (buildReferenceInformation rootSys100 universe150).published = false ∧
    (isPublished rootSys100 && !(isUpdated rootSys100)) = true := by
  refine ⟨?_, by decide, by decide⟩
  intro entrySys refs
  simp only [buildReferenceInformation, Bool.and_eq_true, Bool.or_eq_true,
    Bool.not_eq_true', Bool.or_eq_false_iff, decide_eq_true_eq,
    decide_eq_false_iff_not, Nat.not_lt, Nat.le_zero, List.length_eq_zero,
    List.filter_eq_nil_iff, Bool.not_eq_true, and_assoc]

/-- Claim C10: when the root snapshot has no `publishedAt`, the
out-of-date filters are empty for every universe, and the classifier's
`published` result equals the root's own lifecycle test
`isPublished && !isUpdated`. -/
theorem c10_never_published_root_ignores_dependency_dates
    (entrySys : SysProps) (refs : IAllReferences)
    (h : entrySys.publishedAt = none) :
    (buildReferenceInformation entrySys refs).published =
      (isPublished entrySys && !(isUpdated entrySys)) := by
  have hfa : ∀ dep : Option Nat, publishedAfter entrySys.publishedAt dep = false := by
    intro dep
    rw [h]
    cases dep <;> rfl
  simp [buildReferenceInformation, hfa]

/-- Witness for C10: a never-published root in draft state with the
later-published asset in the universe — the result is just the root's
own lifecycle test. -/
theorem c10_witness :
    ({ id := "draft-root", version := 1 } : SysProps).publishedAt = none ∧
    (buildReferenceInformation { id := "draft-root", version := 1 }
        universe150).published =
      (isPublished { id := "draft-root", version := 1 } &&
        !(isUpdated { id := "draft-root", version := 1 })) :=
  ⟨rfl, c10_never_published_root_ignores_dependency_dates
    { id := "draft-root", version := 1 } universe150 rfl⟩

/-- Entity kind in the orchestrator helper signatures
(the `"asset" | "entry"` union in the source). -/
inductive EntityType where
  | asset
  | entry
deriving DecidableEq, Repr

/-- One observable Content Repository Client call made by `doPublish`,
recorded in issue order: an immediate asset publish, an immediate entry
publish, a scheduled-action creation, or the root publish
`sdk.entry.publish()`. -/
inductive PubCall where
  | publishAsset (assetId : String)
  | publishEntry (entryId : String)
  | scheduleAction (entityType : EntityType)
      (entityId spaceId environmentId scheduledFor : String)
  | publishRoot
deriving DecidableEq, Repr

/-- The Content Repository Client for publishing: the outcome of each
immediate publish call, of each scheduled-action creation (`Except.ok`
carries the created action's `sys.id` when present), and of the root
publish. -/
structure PubEnv where
  assetPublish : String → Except String Unit
  entryPublish : String → Except String Unit
  schedule : EntityType → String → String → String → String →
    Except String (Option String)
  rootPublish : Except String Unit

/-- One `setStatus` report (`IPublishStatus` in the source). -/
structure PubReport where
  total : Nat
  published : Nat
  errors : Nat
  errored : List SysProps
  isScheduled : Bool
  scheduledTime : Option String
  scheduledActionIds : List String
deriving DecidableEq, Repr

/-- Orchestration state: the mutable counters and lists of `doPublish`
plus the trace of Content Repository Client calls. -/
structure PubState where
  total : Nat
  published : Nat
  errors : Nat
  errored : List SysProps
  scheduledActionIds : List String
  statusReports : List PubReport
  calls : List PubCall
deriving DecidableEq, Repr

/-- The `setStatus` payload built from the current orchestration state. -/
def mkReport (isScheduled : Bool) (scheduledTime : Option String)
    (st : PubState) : PubReport :=
  { total := st.total, published := st.published, errors := st.errors,
    errored := st.errored, isScheduled := isScheduled,
    scheduledTime := scheduledTime,
    scheduledActionIds := st.scheduledActionIds }

/-- The `schedulePublish` helper of `doPublish`: returns `false` without
calling out when no scheduled time is set; otherwise creates a scheduled
action, records the returned action id when present, and returns `true`
on success or rethrows the failure. -/
def schedulePublish (env : PubEnv) (scheduledTime : Option String)
    (entityType : EntityType) (id spaceId environmentId : String)
    (st : PubState) : PubState × Except String Bool :=
  match scheduledTime with
  | none => (st, .ok false)
  | some t =>
    let st1 := { st with calls := st.calls ++
      [.scheduleAction entityType id spaceId environmentId t] }
    match env.schedule entityType id spaceId environmentId t with
    | .error msg => (st1, .error msg)
    | .ok (some actionId) =>
        ({ st1 with scheduledActionIds :=
            st1.scheduledActionIds ++ [actionId] }, .ok true)
    | .ok none => (st1, .ok true)

/-- The `publishImmediately` helper of `doPublish`: publish the asset or
entry now, returning `true` on success or rethrowing the failure. -/
def publishImmediately (env : PubEnv) (entityType : EntityType) (id : String)
    (st : PubState) : PubState × Except String Bool :=
  match entityType with
  | .asset =>
    let st1 := { st with calls := st.calls ++ [.publishAsset id] }
    match env.assetPublish id with
    | .ok _ => (st1, .ok true)
    | .error msg => (st1, .error msg)
  | .entry =>
    let st1 := { st with calls := st.calls ++ [.publishEntry id] }
    match env.entryPublish id with
    | .ok _ => (st1, .ok true)
    | .error msg => (st1, .error msg)

/-- One iteration of the dependency loops of `doPublish`: schedule or
publish the item, then either increment `published` or increment `errors`
and record the item's `sys`, and finally emit a `setStatus` report. -/
def publishItem (env : PubEnv) (scheduledTime : Option String)
    (entityType : EntityType) (s : SysProps) (st : PubState) : PubState :=
  let pair :=
    if scheduledTime.isSome then
      schedulePublish env scheduledTime entityType s.id s.spaceId
        s.environmentId st
    else
      publishImmediately env entityType s.id st
  let st2 :=
    match pair.2 with
    | .ok _ => { pair.1 with published := pair.1.published + 1 }
    | .error _ => { pair.1 with errors := pair.1.errors + 1,
                                errored := pair.1.errored ++ [s] }
  { st2 with statusReports := st2.statusReports ++
      [mkReport scheduledTime.isSome scheduledTime st2] }

/-- The initial orchestration state of `doPublish`: `total` summed over
the four dependency lists, zero counters, and the initial `setStatus`
report already emitted. -/
def pubInit (information : IReferenceInformation)
    (scheduledTime : Option String) : PubState :=
  let total := information.draftAssets.length +
    information.updatedAssets.length + information.draftEntries.length +
    information.updatedEntries.length
  let stInit : PubState :=
    { total := total, published := 0, errors := 0, errored := [],
      scheduledActionIds := [], statusReports := [], calls := [] }
  { stInit with
    statusReports := [mkReport scheduledTime.isSome scheduledTime stInit] }

/-- The dependency phase of `doPublish`: the asset loop over draft then
updated assets, followed by the entry loop over draft then updated
entries. -/
def depsPhase (env : PubEnv) (sched : Option String)
    (information : IReferenceInformation) (st : PubState) : PubState :=
  let st1 := (information.draftAssets ++ information.updatedAssets).foldl
    (fun st2 a => publishItem env sched .asset a.sys st2) st
  (information.draftEntries ++ information.updatedEntries).foldl
    (fun st2 e => publishItem env sched .entry e.sys st2) st1

/-- The root finalization of `doPublish`: only when no errors occurred,
schedule the root (scheduled mode) or publish it via
`sdk.entry.publish()`, counting a failure of this step in `errors`. -/
def rootPhase (env : PubEnv) (sched : Option String) (rootSys : SysProps)
    (st2 : PubState) : PubState :=
  if st2.errors = 0 then
    match sched with
    | some _ =>
      let pair := schedulePublish env sched EntityType.entry
        rootSys.id rootSys.spaceId rootSys.environmentId st2
      match pair.2 with
      | .ok _ => pair.1
      | .error _ => { pair.1 with errors := pair.1.errors + 1 }
    | none =>
      let st3 := { st2 with calls := st2.calls ++ [PubCall.publishRoot] }
      match env.rootPublish with
      | .ok _ => st3
      | .error _ => { st3 with errors := st3.errors + 1 }
  else st2

/-- The orchestrator `doPublish` of the source: report the initial
status; process draft then updated assets; process draft then updated
entries; and, only when no errors occurred, publish or schedule the root
entry.  The source returns `errors === 0` (see `doPublishResult`); this
embedding returns the final state with the call trace. -/
def doPublish (env : PubEnv) (information : IReferenceInformation)
    (rootSys : SysProps) (scheduledTime : Option String) : PubState :=
  rootPhase env scheduledTime rootSys
    (depsPhase env scheduledTime information
      (pubInit information scheduledTime))

/-- The boolean returned by `doPublish` in the source: `errors === 0`. -/
def doPublishResult (env : PubEnv) (information : IReferenceInformation)
    (rootSys : SysProps) (scheduledTime : Option String) : Bool :=
  (doPublish env information rootSys scheduledTime).errors == 0

/-- Whether processing one dependency item fails in the given
environment: the scheduled-action creation fails (scheduled mode) or the
immediate publish fails. -/
def itemFails (env : PubEnv) (sched : Option String) (ty : EntityType)
    (s : SysProps) : Bool :=
  match sched with
  | some t =>
    match env.schedule ty s.id s.spaceId s.environmentId t with
    | .error _ => true
    | .ok _ => false
  | none =>
    match ty with
    | .asset =>
      match env.assetPublish s.id with
      | .error _ => true
      | .ok _ => false
    | .entry =>
      match env.entryPublish s.id with
      | .error _ => true
      | .ok _ => false

/-- The single Content Repository Client call issued for one dependency
item: a scheduled-action creation in scheduled mode, an immediate publish
otherwise. -/
def itemCall (sched : Option String) (ty : EntityType) (s : SysProps) :
    PubCall :=
  match sched with
  | some t => .scheduleAction ty s.id s.spaceId s.environmentId t
  | none =>
    match ty with
    | .asset => .publishAsset s.id
    | .entry => .publishEntry s.id

/-- The scheduled-action id recorded for one dependency item, when the
creation succeeds with an id. -/
def itemSchedId (env : PubEnv) (sched : Option String) (ty : EntityType)
    (s : SysProps) : Option String :=
  match sched with
  | some t =>
    match env.schedule ty s.id s.spaceId s.environmentId t with
    | .ok (some i) => some i
    | .ok none => none
    | .error _ => none
  | none => none

/-- The `sys` records of the asset dependencies in processing order
(draft assets, then updated assets). -/
def assetSyss (info : IReferenceInformation) : List SysProps :=
  (info.draftAssets ++ info.updatedAssets).map Asset.sys

/-- The `sys` records of the entry dependencies in processing order
(draft entries, then updated entries). -/
def entrySyss (info : IReferenceInformation) : List SysProps :=
  (info.draftEntries ++ info.updatedEntries).map Entry.sys

/-- Number of dependency items (assets and entries) that fail. -/
def depFailCount (env : PubEnv) (sched : Option String)
    (info : IReferenceInformation) : Nat :=
  (assetSyss info).countP (fun s => itemFails env sched EntityType.asset s) +
  (entrySyss info).countP (fun s => itemFails env sched EntityType.entry s)

/-- Whether the root finalization step fails in the given environment. -/
def rootFails (env : PubEnv) (sched : Option String) (rootSys : SysProps) :
    Bool :=
  match sched with
  | some t =>
    match env.schedule EntityType.entry rootSys.id rootSys.spaceId
        rootSys.environmentId t with
    | .error _ => true
    | .ok _ => false
  | none =>
    match env.rootPublish with
    | .error _ => true
    | .ok _ => false

/-- The Content Repository Client call issued for the root finalization
step. -/
def rootCallOf (sched : Option String) (rootSys : SysProps) : PubCall :=
  match sched with
  | some t => .scheduleAction EntityType.entry rootSys.id rootSys.spaceId
      rootSys.environmentId t
  | none => .publishRoot

/-- The scheduled-action ids recorded by the root finalization step. -/
def rootSchedIds (env : PubEnv) (sched : Option String)
    (rootSys : SysProps) : List String :=
  match sched with
  | some t =>
    match env.schedule EntityType.entry rootSys.id rootSys.spaceId
        rootSys.environmentId t with
    | .ok (some i) => [i]
    | .ok none => []
    | .error _ => []
  | none => []

/-- Field characterization of one dependency-item iteration: exactly one
client call, one error or one success counted, the failed item's `sys`
recorded on failure, and the created action id recorded when present. -/
theorem publishItem_spec (env : PubEnv) (sched : Option String)
    (ty : EntityType) (s : SysProps) (st : PubState) :
    (publishItem env sched ty s st).calls =
      st.calls ++ [itemCall sched ty s] ∧
    (publishItem env sched ty s st).errors =
      st.errors + (if itemFails env sched ty s then 1 else 0) ∧
    (publishItem env sched ty s st).published =
      st.published + (if itemFails env sched ty s then 0 else 1) ∧
    (publishItem env sched ty s st).errored =
      st.errored ++ (if itemFails env sched ty s then [s] else []) ∧
    (publishItem env sched ty s st).scheduledActionIds =
      st.scheduledActionIds ++ (itemSchedId env sched ty s).toList ∧
    (publishItem env sched ty s st).total = st.total := by
  cases sched with
  | some t =>
    cases h : env.schedule ty s.id s.spaceId s.environmentId t with
    | error msg =>
      simp [publishItem, schedulePublish, itemFails, itemCall, itemSchedId, h]
    | ok oid =>
      cases oid with
      | none =>
        simp [publishItem, schedulePublish, itemFails, itemCall,
          itemSchedId, h]
      | some i =>
        simp [publishItem, schedulePublish, itemFails, itemCall,
          itemSchedId, h]
  | none =>
    cases ty with
    | asset =>
      cases h : env.assetPublish s.id with
      | error msg =>
        simp [publishItem, publishImmediately, itemFails, itemCall,
          itemSchedId, h]
      | ok u =>
        simp [publishItem, publishImmediately, itemFails, itemCall,
          itemSchedId, h]
    | entry =>
      cases h : env.entryPublish s.id with
      | error msg =>
        simp [publishItem, publishImmediately, itemFails, itemCall,
          itemSchedId, h]
      | ok u =>
        simp [publishItem, publishImmediately, itemFails, itemCall,
          itemSchedId, h]

/-- Field characterization of a dependency loop: the calls are the item
calls in list order, the counters accumulate failure/success counts, the
failed items are recorded in order, and the created action ids are
collected in order. -/
theorem pubFold_spec (env : PubEnv) (sched : Option String)
    (ty : EntityType) (l : List SysProps) (st : PubState) :
    (l.foldl (fun st2 s => publishItem env sched ty s st2) st).calls =
      st.calls ++ l.map (itemCall sched ty) ∧
    (l.foldl (fun st2 s => publishItem env sched ty s st2) st).errors =
      st.errors + l.countP (fun s => itemFails env sched ty s) ∧
    (l.foldl (fun st2 s => publishItem env sched ty s st2) st).published =
      st.published + l.countP (fun s => !(itemFails env sched ty s)) ∧
    (l.foldl (fun st2 s => publishItem env sched ty s st2) st).errored =
      st.errored ++ l.filter (fun s => itemFails env sched ty s) ∧
    (l.foldl (fun st2 s =>
        publishItem env sched ty s st2) st).scheduledActionIds =
      st.scheduledActionIds ++ l.filterMap (itemSchedId env sched ty) ∧
    (l.foldl (fun st2 s => publishItem env sched ty s st2) st).total =
      st.total := by
  induction l generalizing st with
  | nil => simp
  | cons a tl ih =>
    obtain ⟨s1, s2, s3, s4, s5, s6⟩ := publishItem_spec env sched ty a st
    obtain ⟨i1, i2, i3, i4, i5, i6⟩ := ih (publishItem env sched ty a st)
    simp only [List.foldl_cons]
    refine ⟨?_, ?_, ?_, ?_, ?_, ?_⟩
    · rw [i1, s1]
      simp
    · rw [i2, s2, List.countP_cons]
      by_cases hf : itemFails env sched ty a
      · simp [hf]
        try omega
      · simp [hf]
        try omega
    · rw [i3, s3, List.countP_cons]
      by_cases hf : itemFails env sched ty a
      · simp [hf]
        try omega
      · simp [hf]
        try omega
    · rw [i4, s4, List.filter_cons]
      by_cases hf : itemFails env sched ty a <;> simp [hf]
    · rw [i5, s5, List.filterMap_cons]
      cases hfa : itemSchedId env sched ty a <;> simp [hfa]
    · rw [i6, s6]

/-- Field characterization of the root finalization step. -/
theorem rootPhase_spec (env : PubEnv) (sched : Option String)
    (rootSys : SysProps) (st2 : PubState) :
    (rootPhase env sched rootSys st2).calls =
      st2.calls ++ (if st2.errors = 0 then [rootCallOf sched rootSys]
        else []) ∧
    (rootPhase env sched rootSys st2).errors =
      st2.errors + (if st2.errors = 0 ∧ rootFails env sched rootSys = true
        then 1 else 0) ∧
    (rootPhase env sched rootSys st2).scheduledActionIds =
      st2.scheduledActionIds ++
        (if st2.errors = 0 then rootSchedIds env sched rootSys else []) := by
  by_cases he : st2.errors = 0
  · cases sched with
    | some t =>
      cases h : env.schedule EntityType.entry rootSys.id rootSys.spaceId
          rootSys.environmentId t with
      | error msg =>
        simp [rootPhase, schedulePublish, rootCallOf, rootFails,
          rootSchedIds, he, h]
      | ok oid =>
        cases oid with
        | none =>
          simp [rootPhase, schedulePublish, rootCallOf, rootFails,
            rootSchedIds, he, h]
        | some i =>
          simp [rootPhase, schedulePublish, rootCallOf, rootFails,
            rootSchedIds, he, h]
    | none =>
      cases h : env.rootPublish with
      | error msg =>
        simp [rootPhase, rootCallOf, rootFails, rootSchedIds, he, h]
      | ok u =>
        simp [rootPhase, rootCallOf, rootFails, rootSchedIds, he, h]
  · simp [rootPhase, he]

/-- Full field characterization of a `doPublish` run: the call trace is
the asset calls, then the entry calls, then the root call only when no
dependency failed; the error counter counts dependency failures plus a
possible root failure; and the recorded action ids are those of the
successfully scheduled assets, entries, and root, in order. -/
theorem doPublish_spec (env : PubEnv) (info : IReferenceInformation)
    (rootSys : SysProps) (sched : Option String) :
    (doPublish env info rootSys sched).calls =
      (assetSyss info).map (itemCall sched EntityType.asset) ++
      (entrySyss info).map (itemCall sched EntityType.entry) ++
      (if depFailCount env sched info = 0 then [rootCallOf sched rootSys]
       else []) ∧
    (doPublish env info rootSys sched).errors =
      depFailCount env sched info +
      (if depFailCount env sched info = 0 ∧
          rootFails env sched rootSys = true then 1 else 0) ∧
    (doPublish env info rootSys sched).scheduledActionIds =
      (assetSyss info).filterMap (itemSchedId env sched EntityType.asset) ++
      (entrySyss info).filterMap (itemSchedId env sched EntityType.entry) ++
      (if depFailCount env sched info = 0 then rootSchedIds env sched rootSys
       else []) := by
  have ha := pubFold_spec env sched EntityType.asset (assetSyss info)
    (pubInit info sched)
  rw [assetSyss, List.foldl_map] at ha
  obtain ⟨a1, a2, _, _, a5, _⟩ := ha
  have he := pubFold_spec env sched EntityType.entry (entrySyss info)
    ((info.draftAssets ++ info.updatedAssets).foldl
      (fun st2 a => publishItem env sched EntityType.asset a.sys st2)
      (pubInit info sched))
  rw [entrySyss, List.foldl_map] at he
  obtain ⟨e1, e2, _, _, e5, _⟩ := he
  obtain ⟨r1, r2, r3⟩ := rootPhase_spec env sched rootSys
    ((info.draftEntries ++ info.updatedEntries).foldl
      (fun st2 e => publishItem env sched EntityType.entry e.sys st2)
      ((info.draftAssets ++ info.updatedAssets).foldl
        (fun st2 a => publishItem env sched EntityType.asset a.sys st2)
        (pubInit info sched)))
  have hinit_calls : (pubInit info sched).calls = [] := rfl
  have hinit_errors : (pubInit info sched).errors = 0 := rfl
  have hinit_sa : (pubInit info sched).scheduledActionIds = [] := rfl
  have herr2 : ((info.draftEntries ++ info.updatedEntries).foldl
      (fun st2 e => publishItem env sched EntityType.entry e.sys st2)
      ((info.draftAssets ++ info.updatedAssets).foldl
        (fun st2 a => publishItem env sched EntityType.asset a.sys st2)
        (pubInit info sched))).errors = depFailCount env sched info := by
    rw [e2, a2, hinit_errors, depFailCount]
    rw [assetSyss, entrySyss, List.countP_map, List.countP_map]
    omega
  refine ⟨?_, ?_, ?_⟩
  · simp only [doPublish, depsPhase]
    rw [r1, e1, a1, hinit_calls, herr2]
    simp [assetSyss, entrySyss, List.map_map, Function.comp]
  · simp only [doPublish, depsPhase]
    rw [r2, herr2]
  · simp only [doPublish, depsPhase]
    rw [r3, e5, a5, hinit_sa, herr2]
    simp [assetSyss, entrySyss, List.filterMap_map, Function.comp]

/-- Length of a `filterMap` as a count of inputs mapped to `some`. -/
theorem length_filterMap_eq_countP {α β : Type} (f : α → Option β)
    (l : List α) :
    (l.filterMap f).length = l.countP fun a => (f a).isSome := by
  induction l with
  | nil => rfl
  | cons a tl ih =>
    rw [List.filterMap_cons, List.countP_cons]
    cases h : f a <;> simp [h, ih]

/-- A publish environment in which every call succeeds; scheduled-action
creations return an id derived from the entity id. -/
def envAllOk : PubEnv :=
  { assetPublish := fun _ => .ok ()
    entryPublish := fun _ => .ok ()
    schedule := fun _ i _ _ _ => .ok (some ("act-" ++ i))
    rootPublish := .ok () }

/-- A publish environment in which publishing entry `E1` fails and every
other call succeeds. -/
def envOneFails : PubEnv :=
  { assetPublish := fun _ => .ok ()
    entryPublish := fun i => if i = "E1" then .error "boom" else .ok ()
    schedule := fun _ i _ _ _ => .ok (some ("act-" ++ i))
    rootPublish := .ok () }

/-- Asset dependency with id `A1`. -/
def assetA1 : Asset := { sys := { id := "A1" } }

/-- Asset dependency with id `A2`. -/
def assetA2 : Asset := { sys := { id := "A2" } }

/-- A classified summary with two draft assets and two draft entries. -/
def infoTwoTwo : IReferenceInformation :=
  { published := false, errors := [], errorCount := 0, entryCount := 2,
    draftEntries := [entE1, entE2], updatedEntries := [],
    draftEntryCount := 2, updatedEntryCount := 0, assetCount := 2,
    draftAssets := [assetA1, assetA2], updatedAssets := [],
    draftAssetCount := 2, updatedAssetCount := 0 }

/-- A classified summary with two draft entries and no assets. -/
def infoTwoEntries : IReferenceInformation :=
  { published := false, errors := [], errorCount := 0, entryCount := 2,
    draftEntries := [entE1, entE2], updatedEntries := [],
    draftEntryCount := 2, updatedEntryCount := 0, assetCount := 0,
    draftAssets := [], updatedAssets := [],
    draftAssetCount := 0, updatedAssetCount := 0 }

/-- The `sys` of the root entry used in concrete publish runs. -/
def rootSysR : SysProps := { id := "ROOT" }

/-- Claim C3: in every publish run the call trace is exactly the asset
calls (draft then updated assets, in order), followed by the entry calls
(draft then updated entries, in order), followed — only when no
dependency failed — by the single root call; hence all asset
publish/schedule calls occur strictly before any entry publish/schedule
call and the root call comes after all dependency calls.  In the concrete
run with 2 draft assets, 2 draft entries and zero failures, the client
observes both asset publishes, then both entry publishes, then the root
publish. -/
theorem c3_assets_then_entries_then_root :
    (∀ (env : PubEnv) (info : IReferenceInformation) (rootSys : SysProps)
        (sched : Option String),
      (doPublish env info rootSys sched).calls =
        (assetSyss info).map (itemCall sched EntityType.asset) ++
        (entrySyss info).map (itemCall sched EntityType.entry) ++
        (if depFailCount env sched info = 0 then [rootCallOf sched rootSys]
         else [])) ∧
    (doPublish envAllOk infoTwoTwo rootSysR none).calls =
      [PubCall.publishAsset "A1", PubCall.publishAsset "A2",
       PubCall.publishEntry "E1", PubCall.publishEntry "E2",
       PubCall.publishRoot] := by
  refine ⟨?_, by decide⟩
  intro env info rootSys sched
  exact (doPublish_spec env info rootSys sched).1

/-- Claim C2: `publish()` returns `true` exactly when no dependency item
failed and the root step succeeded; and whenever at least one dependency
item fails, the call trace consists of the dependency calls only — the
root publish/schedule is never invoked — and `publish()` returns
`false`. -/
theorem c2_dependency_failure_blocks_root (env : PubEnv)
    (info : IReferenceInformation) (rootSys : SysProps)
    (sched : Option String) :
    ((doPublishResult env info rootSys sched = true) ↔
      (depFailCount env sched info = 0 ∧
       rootFails env sched rootSys = false)) ∧
    (0 < depFailCount env sched info →
      (doPublish env info rootSys sched).calls =
        (assetSyss info).map (itemCall sched EntityType.asset) ++
        (entrySyss info).map (itemCall sched EntityType.entry) ∧
      doPublishResult env info rootSys sched = false) := by
  obtain ⟨hc, he, _⟩ := doPublish_spec env info rootSys sched
  constructor
  · unfold doPublishResult
    rw [he]
    by_cases hd : depFailCount env sched info = 0
    · by_cases hr : rootFails env sched rootSys = true
      · simp [hd, hr]
      · simp [hd, hr]
    · simp [hd]
  · intro hpos
    have hd : ¬(depFailCount env sched info = 0) := by omega
    refine ⟨?_, ?_⟩
    · rw [hc, if_neg hd, List.append_nil]
    · unfold doPublishResult
      rw [he]
      have hne : ¬(depFailCount env sched info +
          (if depFailCount env sched info = 0 ∧
            rootFails env sched rootSys = true then 1 else 0) = 0) := by
        by_cases hr : depFailCount env sched info = 0 ∧
            rootFails env sched rootSys = true
        · simp [hr]
        · simp [hr]
          omega
      simp [hne]

/-- Witness for C2 at the concrete run where one of two draft entries
fails to publish: the trace has no root call and the run reports
failure. -/
theorem c2_witness :
    0 < depFailCount envOneFails none infoTwoEntries ∧
    ((doPublish envOneFails infoTwoEntries rootSysR none).calls =
      (assetSyss infoTwoEntries).map (itemCall none EntityType.asset) ++
      (entrySyss infoTwoEntries).map (itemCall none EntityType.entry) ∧
     doPublishResult envOneFails infoTwoEntries rootSysR none = false) :=
  ⟨by decide,
    (c2_dependency_failure_blocks_root envOneFails infoTwoEntries rootSysR
      none).2 (by decide)⟩

/-- Claim C9: when a `scheduledFor` timestamp is set, every call issued
by the run — dependencies and root alike — is a scheduled-action
creation (no immediate publish of any kind occurs), and, provided the
scheduling client returns an action id on success as its contract
states, the number of recorded schedule-action ids equals the number of
successfully scheduled items (plus the root when it is scheduled
successfully). -/
theorem c9_scheduled_mode_never_publishes_immediately (env : PubEnv)
    (info : IReferenceInformation) (rootSys : SysProps) (t : String)
    (hcontract : ∀ (ty : EntityType) (i sp en : String),
      env.schedule ty i sp en t ≠ Except.ok none) :
    (∀ c ∈ (doPublish env info rootSys (some t)).calls,
      ∃ ty i sp en, c = PubCall.scheduleAction ty i sp en t) ∧
    (doPublish env info rootSys (some t)).scheduledActionIds.length =
      (assetSyss info).countP
        (fun s => !(itemFails env (some t) EntityType.asset s)) +
      (entrySyss info).countP
        (fun s => !(itemFails env (some t) EntityType.entry s)) +
      (if depFailCount env (some t) info = 0 ∧
          rootFails env (some t) rootSys = false then 1 else 0) := by
  obtain ⟨hc, _, hs⟩ := doPublish_spec env info rootSys (some t)
  have hpt : ∀ (ty : EntityType) (s : SysProps),
      (itemSchedId env (some t) ty s).isSome =
        !(itemFails env (some t) ty s) := by
    intro ty s
    have hcs := hcontract ty s.id s.spaceId s.environmentId
    simp only [itemSchedId, itemFails]
    cases h : env.schedule ty s.id s.spaceId s.environmentId t with
    | error m => rfl
    | ok oid =>
      cases oid with
      | some i => rfl
      | none => exact absurd h hcs
  have hrootlen : (rootSchedIds env (some t) rootSys).length =
      (if rootFails env (some t) rootSys = false then 1 else 0) := by
    have hcs := hcontract EntityType.entry rootSys.id rootSys.spaceId
      rootSys.environmentId
    cases h : env.schedule EntityType.entry rootSys.id rootSys.spaceId
        rootSys.environmentId t with
    | error m => simp [rootSchedIds, rootFails, h]
    | ok oid =>
      cases oid with
      | some i => simp [rootSchedIds, rootFails, h]
      | none => exact absurd h hcs
  constructor
  · intro c hcm
    rw [hc] at hcm
    rcases List.mem_append.1 hcm with hcm | hcm
    · rcases List.mem_append.1 hcm with hcm | hcm
      · obtain ⟨s, _, rfl⟩ := List.mem_map.1 hcm
        exact ⟨EntityType.asset, s.id, s.spaceId, s.environmentId, rfl⟩
      · obtain ⟨s, _, rfl⟩ := List.mem_map.1 hcm
        exact ⟨EntityType.entry, s.id, s.spaceId, s.environmentId, rfl⟩
    · by_cases hd : depFailCount env (some t) info = 0
      · rw [if_pos hd] at hcm
        simp only [List.mem_singleton] at hcm
        subst hcm
        exact ⟨EntityType.entry, rootSys.id, rootSys.spaceId,
          rootSys.environmentId, rfl⟩
      · rw [if_neg hd] at hcm
        exact absurd hcm (List.not_mem_nil c)
  · rw [hs]
    simp only [List.length_append]
    rw [length_filterMap_eq_countP, length_filterMap_eq_countP]
    simp only [hpt]
    by_cases hd : depFailCount env (some t) info = 0
    · rw [if_pos hd]
      rw [hrootlen]
      simp [hd]
    · rw [if_neg hd]
      simp [hd]

/-- Witness for C9 at the concrete scheduled run with 2 draft assets and
2 draft entries against an all-succeeding client. -/
theorem c9_witness :
    (∀ (ty : EntityType) (i sp en : String),
      envAllOk.schedule ty i sp en "2030-01-01T00:00" ≠ Except.ok none) ∧
    ((∀ c ∈ (doPublish envAllOk infoTwoTwo rootSysR
        (some "2030-01-01T00:00")).calls,
      ∃ ty i sp en, c = PubCall.scheduleAction ty i sp en
        "2030-01-01T00:00") ∧
     (doPublish envAllOk infoTwoTwo rootSysR
        (some "2030-01-01T00:00")).scheduledActionIds.length =
      (assetSyss infoTwoTwo).countP
        (fun s => !(itemFails envAllOk (some "2030-01-01T00:00")
          EntityType.asset s)) +
      (entrySyss infoTwoTwo).countP
        (fun s => !(itemFails envAllOk (some "2030-01-01T00:00")
          EntityType.entry s)) +
      (if depFailCount envAllOk (some "2030-01-01T00:00") infoTwoTwo = 0 ∧
          rootFails envAllOk (some "2030-01-01T00:00") rootSysR = false
        then 1 else 0)) := by
  have hcontract : ∀ (ty : EntityType) (i sp en : String),
      envAllOk.schedule ty i sp en "2030-01-01T00:00" ≠ Except.ok none := by
    intro ty i sp en h
    simp [envAllOk] at h
  exact ⟨hcontract,
    c9_scheduled_mode_never_publishes_immediately envAllOk infoTwoTwo
      rootSysR "2030-01-01T00:00" hcontract⟩

end CPS
